import Mathlib

/-!
Verification of the winshot core: the clipboard DIB decoder
(`src/internal/screenshot/clipboard.go`, `GetClipboardImage`) and the
overlay compositor (`src/internal/overlay/draw.go`).

Modelling conventions:
* Clipboard memory is a byte function `Nat → Nat` (each read is taken mod 256,
  matching `*(*byte)` loads); the declared length is the `GlobalSize` result.
* Go `uintptr` arithmetic is unsigned 64-bit: subtraction and the
  stride×height product wrap mod 2^64 exactly as in the source
  (`int64` overflow of `rowSize*height` followed by the `uintptr` view is
  the same as the product mod 2^64).
* Header fields are parsed little-endian from the start of the buffer, at the
  offsets of the Go `BITMAPINFOHEADER` struct layout.
-/

namespace Winshot

/-- Decidable equality of decoder results, used to evaluate the model on
concrete buffers. -/
instance exceptDecEq {ε α : Type} [DecidableEq ε] [DecidableEq α] :
    DecidableEq (Except ε α)
  | .error e, .error f => decidable_of_iff (e = f) (by simp)
  | .error _, .ok _ => isFalse (by intro h; cases h)
  | .ok _, .error _ => isFalse (by intro h; cases h)
  | .ok x, .ok y => decidable_of_iff (x = y) (by simp)

/-! ### Byte memory and little-endian header parsing -/

/-- Byte load from clipboard memory at offset `i` (a byte is always < 256). -/
def byteAt (mem : Nat → Nat) (i : Nat) : Nat := mem i % 256

/-- Little-endian 16-bit load. -/
def leU16 (mem : Nat → Nat) (off : Nat) : Nat :=
  byteAt mem off + 256 * byteAt mem (off + 1)

/-- Little-endian 32-bit load. -/
def leU32 (mem : Nat → Nat) (off : Nat) : Nat :=
  byteAt mem off + 256 * byteAt mem (off + 1) +
    65536 * byteAt mem (off + 2) + 16777216 * byteAt mem (off + 3)

/-- Reinterpret a 32-bit unsigned value as a signed `int32`. -/
def asInt32 (u : Nat) : Int := if u < 2 ^ 31 then (u : Int) else (u : Int) - 2 ^ 32

/-- Field `BiSize` of `BITMAPINFOHEADER` (bytes 0-3). -/
def biSize (mem : Nat → Nat) : Nat := leU32 mem 0

/-- Field `BiWidth` (bytes 4-7, signed). -/
def biWidth (mem : Nat → Nat) : Int := asInt32 (leU32 mem 4)

/-- Field `BiHeight` (bytes 8-11, signed; the sign encodes row order). -/
def biHeight (mem : Nat → Nat) : Int := asInt32 (leU32 mem 8)

/-- Field `BiBitCount` (bytes 14-15). -/
def biBitCount (mem : Nat → Nat) : Nat := leU16 mem 14

/-- Field `BiClrUsed` (bytes 32-35). -/
def biClrUsed (mem : Nat → Nat) : Nat := leU32 mem 32

/-! ### Decoder data model -/

/-- One decoded RGBA pixel, channels 0-255. -/
structure Pixel where
  r : Nat
  g : Nat
  b : Nat
  a : Nat
deriving DecidableEq, Repr

/-- The decoded image: dimensions plus row-major pixels, mirroring the
`image.NewRGBA` buffer that `GetClipboardImage` fills. -/
structure DecodedImage where
  width : Nat
  height : Nat
  pix : List Pixel
deriving DecidableEq, Repr

/-- Every distinct error value `GetClipboardImage` can return.
`noImageInClipboard` is the shared `ErrNoImageInClipboard` value; the others
model the distinct `errors.New` messages in source order. -/
inductive ClipErr where
  | noImageInClipboard
  | openClipboardFailed
  | lockFailed
  | sizeFailed
  | tooLarge
  | invalidDimensions
  | invalidLayout
  | unsupportedDepth
deriving DecidableEq, Repr

/-- Go source: `maxClipboardSize = 100 * 1024 * 1024`. -/
def maxClipboardSize : Nat := 100 * 1024 * 1024

/-! ### Decoder internals, each named after the corresponding Go local -/

/-- Go `bottomUp := height > 0` (decided on the raw signed height). -/
def bottomUp (mem : Nat → Nat) : Bool := 0 < biHeight mem

/-- Go `if height < 0 { height = -height }`: the absolute height. -/
def heightAbs (mem : Nat → Nat) : Int :=
  if biHeight mem < 0 then -biHeight mem else biHeight mem

/-- Decoded width as a natural number (used after the `width <= 0` check). -/
def Wd (mem : Nat → Nat) : Nat := (biWidth mem).toNat

/-- Decoded height as a natural number (used after the `height <= 0` check). -/
def Ht (mem : Nat → Nat) : Nat := (heightAbs mem).toNat

/-- Go color-table size: `1 << bitCount * 4` entries, Go precedence
`(1 << bitCount) * 4`, overridden by `BiClrUsed * 4` (a `uint32` product,
hence mod 2^32) when `BiClrUsed > 0`. -/
def colorTableSize (mem : Nat → Nat) : Nat :=
  if 0 < biClrUsed mem then biClrUsed mem * 4 % 2 ^ 32 else 2 ^ biBitCount mem * 4

/-- Go `pixelOffset := uintptr(header.BiSize)` plus the color table when
`bitCount <= 8` (both summands below 2^34, so no 64-bit wrap can occur). -/
def pixelOffset (mem : Nat → Nat) : Nat :=
  if biBitCount mem ≤ 8 then biSize mem + colorTableSize mem else biSize mem

/-- Go `rowSize := ((width*bitCount + 31) / 32) * 4` (positive operands, so
Go truncating division is `Nat` division). -/
def rowSize (mem : Nat → Nat) : Nat := (Wd mem * biBitCount mem + 31) / 32 * 4

/-- Go `expectedSize := uintptr(rowSize * height)`: the `int` product wraps in
two's complement and the `uintptr` view of the result is the product mod 2^64. -/
def expectedSize (mem : Nat → Nat) : Nat := rowSize mem * Ht mem % 2 ^ 64

/-- Go `dataSize := size - pixelOffset`: unsigned `uintptr` subtraction, which
wraps mod 2^64 (both operands are below 2^64). -/
def dataSize (size : Nat) (mem : Nat → Nat) : Nat :=
  (2 ^ 64 + size - pixelOffset mem) % 2 ^ 64

/-- Source row index for logical row `y`: `srcY = height-1-y` when bottom-up,
else `srcY = y`. -/
def srcRow (mem : Nat → Nat) (y : Nat) : Nat :=
  if bottomUp mem then Ht mem - 1 - y else y

/-- Byte offset of the pixel for logical coordinates `(x, y)` at `bpp` bytes
per pixel: `pixelOffset + srcY*rowSize + x*bpp`, as `uintptr` arithmetic
(mod 2^64). -/
def pixAddr (mem : Nat → Nat) (bpp y x : Nat) : Nat :=
  (pixelOffset mem + srcRow mem y * rowSize mem + x * bpp) % 2 ^ 64

/-- The 24-bit conversion: source triplet (B,G,R) becomes (R,G,B,255). -/
def decodePixel24 (mem : Nat → Nat) (y x : Nat) : Pixel :=
  ⟨byteAt mem (pixAddr mem 3 y x + 2), byteAt mem (pixAddr mem 3 y x + 1),
    byteAt mem (pixAddr mem 3 y x), 255⟩

/-- The 32-bit conversion: source quadruplet (B,G,R,A) becomes
(R,G,B, A == 0 ? 255 : A). -/
def decodePixel32 (mem : Nat → Nat) (y x : Nat) : Pixel :=
  ⟨byteAt mem (pixAddr mem 4 y x + 2), byteAt mem (pixAddr mem 4 y x + 1),
    byteAt mem (pixAddr mem 4 y x),
    if byteAt mem (pixAddr mem 4 y x + 3) = 0 then 255
    else byteAt mem (pixAddr mem 4 y x + 3)⟩

/-- Row-major pixel list produced by the nested `for y { for x { ... } }`
conversion loops. -/
def decodePixels (mem : Nat → Nat) (f : Nat → Nat → Pixel) : List Pixel :=
  ((List.range (Ht mem)).map (fun y => (List.range (Wd mem)).map (fun x => f y x))).flatten

/-- The pure decode stage of `GetClipboardImage`, from the dimension check to
the conversion switch, in exact source order: dimension check, pixel-offset and
stride computation, buffer-layout check, then the bit-depth switch whose
`default` arm is the unsupported-depth error. -/
def decodeDIB (size : Nat) (mem : Nat → Nat) : Except ClipErr DecodedImage :=
  if biWidth mem ≤ 0 ∨ heightAbs mem ≤ 0 then .error .invalidDimensions
  else if dataSize size mem < expectedSize mem then .error .invalidLayout
  else if biBitCount mem = 24 then
    .ok ⟨Wd mem, Ht mem, decodePixels mem (decodePixel24 mem)⟩
  else if biBitCount mem = 32 then
    .ok ⟨Wd mem, Ht mem, decodePixels mem (decodePixel32 mem)⟩
  else .error .unsupportedDepth

/-- Results of the Windows API calls `GetClipboardImage` makes, in call order,
plus the locked memory contents. A zero value models the corresponding call
failing exactly as the source checks it. -/
structure ClipEnv where
  formatAvailable : Nat
  openRet : Nat
  hData : Nat
  lockPtr : Nat
  globalSize : Nat
  mem : Nat → Nat

/-- Full `GetClipboardImage` control flow over an API environment: the guard
chain in exact source order, then the pure decode. The final PNG/base64
encoding is a faithful injective serialization of the decoded image and is
not modelled; the function returns the decoded image itself. -/
def getClipboardImage (env : ClipEnv) : Except ClipErr DecodedImage :=
  if env.formatAvailable = 0 then .error .noImageInClipboard
  else if env.openRet = 0 then .error .openClipboardFailed
  else if env.hData = 0 then .error .noImageInClipboard
  else if env.lockPtr = 0 then .error .lockFailed
  else if env.globalSize = 0 then .error .sizeFailed
  else if maxClipboardSize < env.globalSize then .error .tooLarge
  else decodeDIB env.globalSize env.mem

/-! ### Overlay compositor model (src/internal/overlay/draw.go)

The compositor owns a pixel buffer of `width*height` packed 32-bit BGRA
values, addressed by the linear index `py*width + px` the source uses. The
buffer is modelled as a total function on `Int` indices so that any write
outside `[0, width*height)` — including one at a negative computed index —
would be observable; every source write goes through `updBuf` at exactly the
index the Go code computes. -/

/-- The overlay pixel buffer. -/
def Buf : Type := Int → Nat

/-- A single raw store `pixels[i] = v`. -/
def updBuf (b : Buf) (i : Int) (v : Nat) : Buf := fun j => if j = i then v else b j

/-- The background screenshot: an `image.RGBA` with bounds `width`×`height`,
row stride `Stride`, and its `Pix` byte slice (reads modelled total). -/
structure RGBAImage where
  width : Nat
  height : Nat
  stride : Nat
  pix : Int → Nat

/-- Byte load from the screenshot's `Pix` slice. -/
def pixByte (s : RGBAImage) (i : Int) : Nat := s.pix i % 256

/-- The `Selection` struct of `src/internal/overlay/types.go`. -/
structure Selection where
  startX : Int
  startY : Int
  endX : Int
  endY : Int
  isDragging : Bool
  spaceHeld : Bool

/-- Packing `(255 << 24) | (r << 16) | (g << 8) | b` for byte channels. -/
def packBGRA (r g b : Nat) : Nat := 255 * 2 ^ 24 + r * 2 ^ 16 + g * 2 ^ 8 + b

/-- Windows blue `0x0078D7` with opaque alpha. -/
def blueColor : Nat := 255 * 2 ^ 24 + 0x78 * 2 ^ 8 + 0xD7

/-- Opaque white. -/
def whiteColor : Nat := 255 * 2 ^ 24 + 255 * 2 ^ 16 + 255 * 2 ^ 8 + 255

/-- The recurring guarded store of draw.go:
`if px >= 0 && px < dc.width && py >= 0 && py < dc.height { pixels[py*dc.width+px] = v }`. -/
def setGuarded (W H : Nat) (b : Buf) (px py : Int) (v : Nat) : Buf :=
  if 0 ≤ px ∧ px < (W : Int) ∧ 0 ≤ py ∧ py < (H : Int) then
    updBuf b (py * (W : Int) + px) v
  else b

/-- Go `drawScreenshot`: copies `min(srcHeight,h)` × `min(srcWidth,w)` pixels
of the screenshot into the buffer as opaque BGRA; a nil screenshot is a
no-op. -/
def drawScreenshot (W H : Nat) (scr : Option RGBAImage) (b : Buf) : Buf :=
  match scr with
  | none => b
  | some s =>
    (List.range (min s.height H)).foldl (fun b1 y =>
      (List.range (min s.width W)).foldl (fun b2 x =>
        updBuf b2 ((y * W + x : Nat) : Int)
          (packBGRA (pixByte s (y * s.stride + x * 4))
            (pixByte s (y * s.stride + x * 4 + 1))
            (pixByte s (y * s.stride + x * 4 + 2)))) b1) b

/-- Floor of log2 for `t < 2^128`, by a non-recursive binary comparison
ladder (used to find the exponent of an IEEE-754 double). -/
def log2f (t : Nat) : Nat :=
  let e1 := if 18446744073709551616 ≤ t then 64 else 0
  let t1 := t / 2 ^ e1
  let e2 := if 4294967296 ≤ t1 then 32 else 0
  let t2 := t1 / 2 ^ e2
  let e3 := if 65536 ≤ t2 then 16 else 0
  let t3 := t2 / 2 ^ e3
  let e4 := if 256 ≤ t3 then 8 else 0
  let t4 := t3 / 2 ^ e4
  let e5 := if 16 ≤ t4 then 4 else 0
  let t5 := t4 / 2 ^ e5
  let e6 := if 4 ≤ t5 then 2 else 0
  let t6 := t5 / 2 ^ e6
  let e7 := if 2 ≤ t6 then 1 else 0
  e1 + e2 + e3 + e4 + e5 + e6 + e7

/-- Round the nonnegative rational `a/b` to the nearest integer, ties to
even — the rounding step of IEEE-754 round-to-nearest-even (`b > 0`). -/
def rhe (a b : Nat) : Nat :=
  let q := a / b
  let r := a % b
  if 2 * r < b then q
  else if b < 2 * r then q + 1
  else if q % 2 = 0 then q else q + 1

/-- Round the nonnegative rational `a/b` to the nearest IEEE-754 `float64`
(round to nearest, ties to even), returned as `(n, k)` with value `n / 2^k`:
the significand is found by rounding at bit position `e - 52` of the
quotient's exponent `e`. Exact on the normal, non-overflowing range used
here, which is all the decoder of this file ever produces. -/
def flQ (a b : Nat) : Nat × Nat :=
  if a = 0 then (0, 0)
  else
    let e64 := log2f (a * 18446744073709551616 / b)
    let k := 116 - e64
    (rhe (a * 2 ^ k) b, k)

/-- Go `uint32(float64(c) * (float64(255-alpha) / 255.0))`: the operands are
integers representable exactly, the division and the multiplication each
round to the nearest `float64`, and the `uint32` conversion truncates toward
zero. This reproduces the source's double-precision scale bit-for-bit
(e.g. `goFloatScale 60 153 = 116` although `153*195/255 = 117`). -/
def goFloatScale (alpha c : Nat) : Nat :=
  let f := flQ (255 - alpha) 255
  let p := flQ (c * f.1) (2 ^ f.2)
  p.1 / 2 ^ p.2

/-- One pixel of Go `fillOverlay`: each channel is scaled by
`factor = float64(255-alpha)/255.0` in double precision and truncated with
`uint32(...)` (modelled exactly by `goFloatScale`), and the result is
reassembled with opaque alpha. -/
def fillPixel (alpha : Nat) (p : Nat) : Nat :=
  255 * 2 ^ 24 + goFloatScale alpha (p / 2 ^ 16 % 256) * 2 ^ 16 +
    goFloatScale alpha (p / 2 ^ 8 % 256) * 2 ^ 8 +
    goFloatScale alpha (p % 256)

/-- One iteration of Go `fillOverlay`'s loop: read `pixels[i]`, blend, store
back at `i`. -/
def fillStep (alpha : Nat) (acc : Buf) (i : Nat) : Buf :=
  updBuf acc ((i : Nat) : Int) (fillPixel alpha (acc ((i : Nat) : Int)))

/-- Go `fillOverlay`: blends every pixel of the buffer toward black. -/
def fillOverlay (W H : Nat) (alpha : Nat) (b : Buf) : Buf :=
  (List.range (W * H)).foldl (fillStep alpha) b

/-- The spec's `darken(factor 0-255)` primitive: the code's `fillOverlay`
with `alpha = 255 - factor`, since the source's own `factor` variable is
`(255-alpha)/255`; `darken 255` is `fillOverlay 0`, the identity scale. -/
def darken (W H f : Nat) (b : Buf) : Buf := fillOverlay W H (255 - f) b

/-- The body of Go `clearRegion`'s inner loop: skip the pixel when
`px < 0 || px >= dc.width || px >= srcWidth`, else restore the screenshot
pixel. -/
def clearPixel (W H : Nat) (s : RGBAImage) (py : Int) (b2 : Buf) (px : Int) : Buf :=
  if px < 0 ∨ (W : Int) ≤ px ∨ (s.width : Int) ≤ px then b2
  else
    updBuf b2 (py * (W : Int) + px)
      (packBGRA (pixByte s (py * (s.stride : Int) + px * 4))
        (pixByte s (py * (s.stride : Int) + px * 4 + 1))
        (pixByte s (py * (s.stride : Int) + px * 4 + 2)))

/-- The body of Go `clearRegion`'s outer loop: skip the row when
`py < 0 || py >= dc.height || py >= srcHeight`, else restore `w` pixels
starting at `x`. -/
def clearRow (W H : Nat) (s : RGBAImage) (x w : Int) (b1 : Buf) (py : Int) : Buf :=
  if py < 0 ∨ (H : Int) ≤ py ∨ (s.height : Int) ≤ py then b1
  else (List.range w.toNat).foldl (fun b2 (dx : Nat) => clearPixel W H s py b2 (x + (dx : Int))) b1

/-- Go `clearRegion`: re-blits the original screenshot inside the `w`×`h`
rectangle at `(x,y)`, clipping to both the buffer and the screenshot; a nil
screenshot is a no-op. -/
def clearRegion (W H : Nat) (x y w h : Int) (scr : Option RGBAImage) (b : Buf) : Buf :=
  match scr with
  | none => b
  | some s => (List.range h.toNat).foldl (fun b1 (dy : Nat) => clearRow W H s x w b1 (y + (dy : Int))) b

/-- Go `drawSelectionBorder`: a 2-pixel blue border, each edge drawn with
the guarded store. -/
def drawSelectionBorder (W H : Nat) (x y w h : Int) (b : Buf) : Buf :=
  (List.range 2).foldl (fun b0 (t : Nat) =>
    let b1 := (List.range w.toNat).foldl
      (fun bb (k : Nat) => setGuarded W H bb (x + (k : Int)) (y + (t : Int)) blueColor) b0
    let b2 := (List.range w.toNat).foldl
      (fun bb (k : Nat) => setGuarded W H bb (x + (k : Int)) (y + h - 1 - (t : Int)) blueColor) b1
    let b3 := (List.range h.toNat).foldl
      (fun bb (k : Nat) => setGuarded W H bb (x + (t : Int)) (y + (k : Int)) blueColor) b2
    (List.range h.toNat).foldl
      (fun bb (k : Nat) => setGuarded W H bb (x + w - 1 - (t : Int)) (y + (k : Int)) blueColor) b3) b

/-- Go `drawCornerHandles`: a filled 6×6 blue square centred on each corner
(`handleSize/2 = 3`). -/
def drawCornerHandles (W H : Nat) (x y w h : Int) (b : Buf) : Buf :=
  ([(x - 3, y - 3), (x + w - 3, y - 3), (x - 3, y + h - 3),
      (x + w - 3, y + h - 3)] : List (Int × Int)).foldl
    (fun b0 c =>
      (List.range 6).foldl (fun b1 (dy : Nat) =>
        (List.range 6).foldl (fun b2 (dx : Nat) =>
          setGuarded W H b2 (c.1 + (dx : Int)) (c.2 + (dy : Int)) blueColor) b1) b0) b

/-- The 5×7 glyph table of Go `drawText` (digits, lowercase x, space). -/
def fontDigits : Char → Option (List Nat)
  | '0' => some [0x3E, 0x45, 0x49, 0x51, 0x3E]
  | '1' => some [0x00, 0x21, 0x7F, 0x01, 0x00]
  | '2' => some [0x27, 0x49, 0x49, 0x49, 0x31]
  | '3' => some [0x22, 0x49, 0x49, 0x49, 0x36]
  | '4' => some [0x0C, 0x14, 0x24, 0x7F, 0x04]
  | '5' => some [0x72, 0x51, 0x51, 0x51, 0x4E]
  | '6' => some [0x3E, 0x49, 0x49, 0x49, 0x26]
  | '7' => some [0x40, 0x40, 0x47, 0x48, 0x70]
  | '8' => some [0x36, 0x49, 0x49, 0x49, 0x36]
  | '9' => some [0x32, 0x49, 0x49, 0x49, 0x3E]
  | 'x' => some [0x00, 0x14, 0x08, 0x14, 0x00]
  | ' ' => some [0x00, 0x00, 0x00, 0x00, 0x00]
  | _ => none

/-- The extended 5×7 glyph table of Go `drawInstructionText`. -/
def fontInstr : Char → Option (List Nat)
  | '0' => some [0x3E, 0x45, 0x49, 0x51, 0x3E]
  | '1' => some [0x00, 0x21, 0x7F, 0x01, 0x00]
  | '2' => some [0x27, 0x49, 0x49, 0x49, 0x31]
  | '3' => some [0x22, 0x49, 0x49, 0x49, 0x36]
  | '4' => some [0x0C, 0x14, 0x24, 0x7F, 0x04]
  | '5' => some [0x72, 0x51, 0x51, 0x51, 0x4E]
  | '6' => some [0x3E, 0x49, 0x49, 0x49, 0x26]
  | '7' => some [0x40, 0x40, 0x47, 0x48, 0x70]
  | '8' => some [0x36, 0x49, 0x49, 0x49, 0x36]
  | '9' => some [0x32, 0x49, 0x49, 0x49, 0x3E]
  | 'A' => some [0x3F, 0x48, 0x48, 0x48, 0x3F]
  | 'B' => some [0x7F, 0x49, 0x49, 0x49, 0x36]
  | 'C' => some [0x3E, 0x41, 0x41, 0x41, 0x22]
  | 'D' => some [0x7F, 0x41, 0x41, 0x41, 0x3E]
  | 'E' => some [0x7F, 0x49, 0x49, 0x49, 0x41]
  | 'S' => some [0x32, 0x49, 0x49, 0x49, 0x26]
  | 'a' => some [0x02, 0x15, 0x15, 0x15, 0x0F]
  | 'c' => some [0x0E, 0x11, 0x11, 0x11, 0x0A]
  | 'd' => some [0x0E, 0x11, 0x11, 0x11, 0x7F]
  | 'e' => some [0x0E, 0x15, 0x15, 0x15, 0x0C]
  | 'g' => some [0x08, 0x15, 0x15, 0x15, 0x1E]
  | 'h' => some [0x7F, 0x08, 0x08, 0x08, 0x07]
  | 'i' => some [0x00, 0x00, 0x2F, 0x00, 0x00]
  | 'l' => some [0x00, 0x00, 0x7F, 0x00, 0x00]
  | 'm' => some [0x1F, 0x10, 0x0E, 0x10, 0x0F]
  | 'n' => some [0x1F, 0x08, 0x10, 0x10, 0x0F]
  | 'o' => some [0x0E, 0x11, 0x11, 0x11, 0x0E]
  | 'p' => some [0x1F, 0x14, 0x14, 0x14, 0x08]
  | 'r' => some [0x1F, 0x08, 0x10, 0x10, 0x08]
  | 's' => some [0x09, 0x15, 0x15, 0x15, 0x12]
  | 't' => some [0x10, 0x7E, 0x11, 0x01, 0x02]
  | 'u' => some [0x1E, 0x01, 0x01, 0x01, 0x1E]
  | 'v' => some [0x18, 0x06, 0x01, 0x06, 0x18]
  | 'x' => some [0x11, 0x0A, 0x04, 0x0A, 0x11]
  | ' ' => some [0x00, 0x00, 0x00, 0x00, 0x00]
  | '.' => some [0x00, 0x01, 0x00, 0x00, 0x00]
  | '+' => some [0x04, 0x04, 0x1F, 0x04, 0x04]
  | 'H' => some [0x7F, 0x08, 0x08, 0x08, 0x7F]
  | 'P' => some [0x7F, 0x48, 0x48, 0x48, 0x30]
  | _ => none

/-- One glyph: for each column and each of the 7 rows, set the pixel when
bit `6-row` of the column mask is set (`bits & (1 << (6-row)) != 0`). -/
def drawGlyph (W H : Nat) (x0 y0 : Int) (glyph : List Nat) (color : Nat) (b : Buf) : Buf :=
  glyph.enum.foldl (fun b1 cb =>
    (List.range 7).foldl (fun b2 (row : Nat) =>
      if cb.2 / 2 ^ (6 - row) % 2 = 1 then
        setGuarded W H b2 (x0 + (cb.1 : Int)) (y0 + (row : Int)) color
      else b2) b1) b

/-- The shared text loop of Go `drawText`/`drawInstructionText`: draw each
mapped glyph in white at the cursor and advance a fixed 6-pixel pitch;
unmapped characters advance without drawing. -/
def drawTextRun (W H : Nat) (font : Char → Option (List Nat)) (x y : Int)
    (text : List Char) (b : Buf) : Buf :=
  (text.foldl (fun (acc : Buf × Int) ch =>
    match font ch with
    | none => (acc.1, acc.2 + 6)
    | some glyph => (drawGlyph W H acc.2 y glyph whiteColor acc.1, acc.2 + 6))
    (b, x)).1

/-- Go `drawSizeIndicator`: a blue pill sized to the text `"w x h"`,
repositioned to stay inside the buffer when it would overflow the bottom or
right edge, then the text on top. -/
def drawSizeIndicator (W H : Nat) (x y w h : Int) (b : Buf) : Buf :=
  let text := toString w ++ " x " ++ toString h
  let textWidth : Int := (text.length : Int) * 7
  let pillWidth : Int := textWidth + 16
  let pillHeight : Int := 20
  let pillY : Int := if (H : Int) ≤ y + pillHeight then y - pillHeight - 8 else y
  let pillX1 : Int := if (W : Int) ≤ x + pillWidth then (W : Int) - pillWidth - 4 else x
  let pillX : Int := if pillX1 < 0 then 4 else pillX1
  let b1 := (List.range pillHeight.toNat).foldl (fun bb (dy : Nat) =>
    (List.range pillWidth.toNat).foldl (fun b2 (dx : Nat) =>
      setGuarded W H b2 (pillX + (dx : Int)) (pillY + (dy : Int)) blueColor) bb) b
  drawTextRun W H fontDigits (pillX + 8) (pillY + 4) text.toList b1

/-- The instruction line chosen by Go `drawInstructions`. -/
def instructionsText (sel : Selection) : String :=
  if sel.isDragging && sel.spaceHeld then "Hold Space + Drag to reposition"
  else "Drag to select. Space to move. ESC cancel"

/-- Go `drawInstructions`: a translucent black pill centred near the top,
then the instruction text; `(dc.width - pillWidth) / 2` is Go's truncating
integer division, `Int.tdiv`. -/
def drawInstructions (W H : Nat) (sel : Selection) (b : Buf) : Buf :=
  let text := instructionsText sel
  let textWidth : Int := (text.length : Int) * 7
  let pillWidth : Int := textWidth + 20
  let pillHeight : Int := 24
  let pillX : Int := Int.tdiv ((W : Int) - pillWidth) 2
  let pillY : Int := 16
  let b1 := (List.range pillHeight.toNat).foldl (fun bb (dy : Nat) =>
    (List.range pillWidth.toNat).foldl (fun b2 (dx : Nat) =>
      setGuarded W H b2 (pillX + (dx : Int)) (pillY + (dy : Int)) (220 * 2 ^ 24)) bb) b
  drawTextRun W H fontInstr (pillX + 10) (pillY + 6) text.toList b1

/-- Go `DrawOverlay`: screenshot blit, darken with alpha 128, and — while a
drag is active — clear the normalized selection, border, corner handles and
size pill, then always the instruction pill. The Go expression
`int(float64(v) * scaleRatio)` is abstracted as an arbitrary integer scale
function, over which the safety claim quantifies. -/
def drawOverlay (W H : Nat) (scr : Option RGBAImage) (sel : Selection)
    (scale : Int → Int) (b : Buf) : Buf :=
  let b1 := drawScreenshot W H scr b
  let b2 := fillOverlay W H 128 b1
  let b3 :=
    if sel.isDragging then
      let x1 := min sel.startX sel.endX
      let y1 := min sel.startY sel.endY
      let x2 := max sel.startX sel.endX
      let y2 := max sel.startY sel.endY
      let w := x2 - x1
      let h := y2 - y1
      let b4 := clearRegion W H x1 y1 w h scr b2
      let b5 := drawSelectionBorder W H x1 y1 w h b4
      let b6 := drawCornerHandles W H x1 y1 w h b5
      drawSizeIndicator W H x1 (y2 + 8) (scale w) (scale h) b6
    else b2
  drawInstructions W H sel b3

/-- An index outside the owned pixel buffer `[0, width*height)`. -/
def outOfBuf (W H : Nat) (i : Int) : Prop := i < 0 ∨ ((W * H : Nat) : Int) ≤ i

/-! ### Concrete buffers used as counterexamples and witnesses -/

/-- Environment in which every API call succeeds and the locked buffer has
the given declared length and bytes. -/
def okEnv (size : Nat) (mem : Nat → Nat) : ClipEnv := ⟨1, 1, 1, 1, size, mem⟩

/-- A 40-byte buffer whose header declares `BiSize = 44` (larger than the
declared length 40), width 1, height 1, 24-bit. All other bytes are zero. -/
def c1memA : Nat → Nat := fun i =>
  if i = 0 then 44 else if i = 4 then 1 else if i = 8 then 1
  else if i = 14 then 24 else 0

/-- Identical to `c1memA` on every byte below the declared length 40, but
byte 44 — outside the declared buffer — differs. -/
def c1memB : Nat → Nat := fun i => if i = 44 then 7 else c1memA i

/-- A 40-byte buffer declaring `BiSize = 40`, width 1, height 1 and the
unsupported bit depth 16; its declared length is 4 bytes short of the
16-bit layout `40 + 4`. -/
def c2mem : Nat → Nat := fun i =>
  if i = 0 then 40 else if i = 4 then 1 else if i = 8 then 1
  else if i = 14 then 16 else 0

/-- A well-formed 44-byte, 1×1, 32-bit buffer whose single source pixel is
(B,G,R,A) = (10,20,30,128): source alpha 128 is nonzero. -/
def c3mem : Nat → Nat := fun i =>
  if i = 0 then 40 else if i = 4 then 1 else if i = 8 then 1
  else if i = 14 then 32 else if i = 40 then 10 else if i = 41 then 20
  else if i = 42 then 30 else if i = 43 then 128 else 0

/-- A 48-byte top-down buffer: `BiSize = 40`, width 1, height -2 (bytes 8-11
are the two's complement 0xFFFFFFFE), 24-bit; logical row 0 holds bytes
(1,2,3) at offset 40, logical row 1 holds (4,5,6) at offset 44. -/
def c5mem1 : Nat → Nat := fun i =>
  if i = 0 then 40 else if i = 4 then 1 else if i = 8 then 254
  else if i = 9 then 255 else if i = 10 then 255 else if i = 11 then 255
  else if i = 14 then 24 else if i = 40 then 1 else if i = 41 then 2
  else if i = 42 then 3 else if i = 44 then 4 else if i = 45 then 5
  else if i = 46 then 6 else 0

/-- The bottom-up encoding of the same logical image as `c5mem1`: height +2,
source row 0 holds logical row 1 (bytes 4,5,6) and source row 1 holds
logical row 0 (bytes 1,2,3). -/
def c5mem2 : Nat → Nat := fun i =>
  if i = 0 then 40 else if i = 4 then 1 else if i = 8 then 2
  else if i = 14 then 24 else if i = 40 then 4 else if i = 41 then 5
  else if i = 42 then 6 else if i = 44 then 1 else if i = 45 then 2
  else if i = 46 then 3 else 0

/-- The header byte positions of the `BiPlanes` (12-13), `BiCompression`
(16-19) and `BiSizeImage` (20-23) fields: the fields the decoder is claimed
to ignore. -/
def headerSlack (i : Nat) : Prop := i = 12 ∨ i = 13 ∨ (16 ≤ i ∧ i ≤ 23)

instance : DecidablePred headerSlack := fun i => by
  unfold headerSlack; infer_instance

/-- A 20-byte buffer declaring `BiSize = 16`, width 1, height 1, 32-bit: the
pixel offset is 16, so the single pixel is read from bytes 16-19 — the
`BiCompression` field itself. -/
def c10memA : Nat → Nat := fun i =>
  if i = 0 then 16 else if i = 4 then 1 else if i = 8 then 1
  else if i = 14 then 32 else 0

/-- Identical to `c10memA` except byte 16, the least significant byte of the
`BiCompression` field. -/
def c10memB : Nat → Nat := fun i => if i = 16 then 9 else c10memA i

/-- A well-formed 44-byte, 1×1, 24-bit buffer with `BiSize = 40`. -/
def c10memC : Nat → Nat := fun i =>
  if i = 0 then 40 else if i = 4 then 1 else if i = 8 then 1
  else if i = 14 then 24 else if i = 40 then 7 else if i = 41 then 8
  else if i = 42 then 9 else 0

/-- Identical to `c10memC` except byte 16, the least significant byte of the
`BiCompression` field. -/
def c10memD : Nat → Nat := fun i => if i = 16 then 5 else c10memC i

/-! ### Helper lemmas shared by the claim theorems -/

theorem sum_map_const_range (H W : Nat) :
    ((List.range H).map (fun _ => W)).sum = H * W := by
  induction H with
  | zero => simp
  | succ n ih => rw [List.range_succ]; simp [ih]; ring

theorem flatten_getElem_uniform {α : Type} (W : Nat) :
    ∀ (L : List (List α)) (y x : Nat), (∀ l ∈ L, l.length = W) → x < W →
      L.flatten[y * W + x]? = L[y]?.bind fun row => row[x]? := by
  intro L
  induction L with
  | nil => intro y x _ _; simp
  | cons head tail ih =>
    intro y x hW hx
    have hhead : head.length = W := hW head (List.mem_cons_self head tail)
    cases y with
    | zero =>
      rw [List.flatten_cons, List.getElem?_append]
      simp only [Nat.zero_mul, Nat.zero_add]
      rw [if_pos (by omega)]
      simp
    | succ y' =>
      rw [List.flatten_cons,
        List.getElem?_append_right (by rw [hhead, Nat.succ_mul]; omega)]
      have harith : (y' + 1) * W + x - head.length = y' * W + x := by
        rw [hhead, Nat.succ_mul]; omega
      rw [harith, ih y' x (fun l hl => hW l (List.mem_cons_of_mem _ hl)) hx]
      simp

theorem decodePixels_length (mem : Nat → Nat) (f : Nat → Nat → Pixel) :
    (decodePixels mem f).length = Ht mem * Wd mem := by
  unfold decodePixels
  rw [List.length_flatten, List.map_map]
  have : (List.length ∘ fun y => (List.range (Wd mem)).map (fun x => f y x)) =
      fun _ => Wd mem := by
    funext y; simp
  rw [this, sum_map_const_range]

theorem decodePixels_getElem (mem : Nat → Nat) (f : Nat → Nat → Pixel)
    (y x : Nat) (hy : y < Ht mem) (hx : x < Wd mem) :
    (decodePixels mem f)[y * Wd mem + x]? = some (f y x) := by
  unfold decodePixels
  rw [flatten_getElem_uniform (Wd mem) _ y x (by simp) hx]
  rw [List.getElem?_map, List.getElem?_range hy]
  simp [List.getElem?_map, List.getElem?_range hx]

theorem decodePixels_mem (mem : Nat → Nat) (f : Nat → Nat → Pixel)
    (p : Pixel) (hp : p ∈ decodePixels mem f) :
    ∃ y x, y < Ht mem ∧ x < Wd mem ∧ p = f y x := by
  unfold decodePixels at hp
  rw [List.mem_flatten] at hp
  obtain ⟨row, hrow, hpin⟩ := hp
  rw [List.mem_map] at hrow
  obtain ⟨y, hy, rfl⟩ := hrow
  rw [List.mem_map] at hpin
  obtain ⟨x, hx, rfl⟩ := hpin
  exact ⟨y, x, List.mem_range.mp hy, List.mem_range.mp hx, rfl⟩

theorem dataSize_not_lt (size : Nat) (mem : Nat → Nat) (hsz : size < 2 ^ 64)
    (hfit : pixelOffset mem + rowSize mem * Ht mem ≤ size) :
    ¬ dataSize size mem < expectedSize mem := by
  have hds : dataSize size mem = size - pixelOffset mem := by
    unfold dataSize
    have h1 : 2 ^ 64 + size - pixelOffset mem = 2 ^ 64 + (size - pixelOffset mem) := by
      omega
    rw [h1, Nat.add_mod_left, Nat.mod_eq_of_lt (by omega)]
  have hes : expectedSize mem = rowSize mem * Ht mem := Nat.mod_eq_of_lt (by omega)
  rw [hds, hes]; omega

theorem rowSize_ge_24 (mem : Nat → Nat) (h : biBitCount mem = 24) :
    3 * Wd mem ≤ rowSize mem := by
  unfold rowSize; rw [h]; omega

theorem rowSize_eq_32 (mem : Nat → Nat) (h : biBitCount mem = 32) :
    rowSize mem = 4 * Wd mem := by
  unfold rowSize; rw [h]; omega

theorem pixAddr_eq (mem : Nat → Nat) (bpp y x size : Nat) (hsz : size < 2 ^ 64)
    (hfit : pixelOffset mem + rowSize mem * Ht mem ≤ size)
    (hy : y < Ht mem) (hxb : x * bpp < rowSize mem) :
    pixAddr mem bpp y x = pixelOffset mem + srcRow mem y * rowSize mem + x * bpp := by
  unfold pixAddr
  apply Nat.mod_eq_of_lt
  have hsr : srcRow mem y ≤ Ht mem - 1 := by unfold srcRow; split <;> omega
  have h2 : srcRow mem y + 1 ≤ Ht mem := by omega
  have h3 : (srcRow mem y + 1) * rowSize mem ≤ Ht mem * rowSize mem :=
    Nat.mul_le_mul_right _ h2
  rw [Nat.succ_mul] at h3
  rw [Nat.mul_comm (Ht mem)] at h3
  omega

theorem getClipboardImage_okEnv (size : Nat) (mem : Nat → Nat)
    (h0 : size ≠ 0) (hcap : size ≤ maxClipboardSize) :
    getClipboardImage (okEnv size mem) = decodeDIB size mem := by
  simp only [getClipboardImage, okEnv]
  rw [if_neg (by omega : ¬ (1 : Nat) = 0), if_neg (by omega : ¬ (1 : Nat) = 0),
    if_neg (by omega : ¬ (1 : Nat) = 0), if_neg (by omega : ¬ (1 : Nat) = 0),
    if_neg h0, if_neg (by omega)]

theorem fillOverlay_foldl_apply (alpha : Nat) (b : Buf) (n : Nat) (i : Int) :
    ((List.range n).foldl (fillStep alpha) b) i =
      if 0 ≤ i ∧ i < (n : Int) then fillPixel alpha (b i) else b i := by
  induction n generalizing i with
  | zero =>
    simp only [List.range_zero, List.foldl_nil]
    rw [if_neg (by omega)]
  | succ n ih =>
    rw [List.range_succ, List.foldl_append, List.foldl_cons, List.foldl_nil]
    have hAn : ((List.range n).foldl (fillStep alpha) b) ((n : Nat) : Int) =
        b ((n : Nat) : Int) := by
      rw [ih]
      rw [if_neg (by omega)]
    simp only [fillStep, updBuf]
    by_cases hi : i = ((n : Nat) : Int)
    · rw [if_pos hi, hAn, hi, if_pos (by refine ⟨by omega, by omega⟩)]
    · rw [if_neg hi, ih]
      by_cases hc : 0 ≤ i ∧ i < (n : Int)
      · rw [if_pos hc, if_pos (by omega)]
      · rw [if_neg hc, if_neg (by omega)]

theorem fillOverlay_apply (W H alpha : Nat) (b : Buf) (i : Int) :
    fillOverlay W H alpha b i =
      if 0 ≤ i ∧ i < ((W * H : Nat) : Int) then fillPixel alpha (b i) else b i := by
  unfold fillOverlay
  exact fillOverlay_foldl_apply alpha b (W * H) i

theorem natIdx_lt (W H y x : Nat) (hy : y < H) (hx : x < W) :
    y * W + x < W * H := by
  calc y * W + x < y * W + W := by omega
    _ = (y + 1) * W := by ring
    _ ≤ H * W := Nat.mul_le_mul_right W hy
    _ = W * H := Nat.mul_comm H W

theorem intIdx_bounds (W H : Nat) (px py : Int)
    (h1 : 0 ≤ px) (h2 : px < (W : Int)) (h3 : 0 ≤ py) (h4 : py < (H : Int)) :
    0 ≤ py * (W : Int) + px ∧ py * (W : Int) + px < ((W * H : Nat) : Int) := by
  have hW0 : (0 : Int) ≤ (W : Int) := Int.natCast_nonneg W
  have h5 : (py + 1) * (W : Int) ≤ (H : Int) * (W : Int) :=
    mul_le_mul_of_nonneg_right (by omega) hW0
  rw [add_mul, one_mul] at h5
  have h6 : 0 ≤ py * (W : Int) := mul_nonneg h3 hW0
  have hcast : ((W * H : Nat) : Int) = (H : Int) * (W : Int) := by push_cast; ring
  rw [hcast]
  constructor
  · linarith
  · linarith

theorem foldl_apply_frame {α : Type} (l : List α) (step : Buf → α → Buf)
    (b : Buf) (i : Int) (h : ∀ acc a, a ∈ l → step acc a i = acc i) :
    l.foldl step b i = b i := by
  induction l generalizing b with
  | nil => rfl
  | cons hd tl ih =>
    rw [List.foldl_cons]
    rw [ih (step b hd) (fun acc a ha => h acc a (List.mem_cons_of_mem _ ha))]
    exact h b hd (List.mem_cons_self _ _)

theorem setGuarded_frame (W H : Nat) (b : Buf) (px py : Int) (v : Nat)
    (i : Int) (hout : outOfBuf W H i) : setGuarded W H b px py v i = b i := by
  unfold setGuarded
  split
  · rename_i hg
    obtain ⟨hb1, hb2⟩ := intIdx_bounds W H px py hg.1 hg.2.1 hg.2.2.1 hg.2.2.2
    unfold updBuf
    rw [if_neg (by unfold outOfBuf at hout; omega)]
  · rfl

theorem drawScreenshot_frame (W H : Nat) (scr : Option RGBAImage) (b : Buf)
    (i : Int) (hout : outOfBuf W H i) : drawScreenshot W H scr b i = b i := by
  unfold drawScreenshot
  cases scr with
  | none => rfl
  | some s =>
    apply foldl_apply_frame
    intro acc y hy
    dsimp only
    apply foldl_apply_frame
    intro acc2 x hx
    dsimp only
    rw [List.mem_range] at hy hx
    have hlt : y * W + x < W * H := natIdx_lt W H y x (by omega) (by omega)
    unfold updBuf
    rw [if_neg (by unfold outOfBuf at hout; omega)]

theorem fillOverlay_frame (W H alpha : Nat) (b : Buf) (i : Int)
    (hout : outOfBuf W H i) : fillOverlay W H alpha b i = b i := by
  rw [fillOverlay_apply]
  rw [if_neg (by unfold outOfBuf at hout; omega)]

theorem clearPixel_frame (W H : Nat) (s : RGBAImage) (py : Int) (b2 : Buf)
    (px : Int) (hpy1 : 0 ≤ py) (hpy2 : py < (H : Int)) (i : Int)
    (hout : outOfBuf W H i) : clearPixel W H s py b2 px i = b2 i := by
  unfold clearPixel
  split
  · rfl
  · rename_i hg
    push_neg at hg
    obtain ⟨hb1, hb2⟩ := intIdx_bounds W H px py (by omega) (by omega) hpy1 hpy2
    unfold updBuf
    rw [if_neg (by unfold outOfBuf at hout; omega)]

theorem clearRow_frame (W H : Nat) (s : RGBAImage) (x w : Int) (b1 : Buf)
    (py : Int) (i : Int) (hout : outOfBuf W H i) :
    clearRow W H s x w b1 py i = b1 i := by
  unfold clearRow
  split
  · rfl
  · rename_i hg
    push_neg at hg
    apply foldl_apply_frame
    intro acc dx _
    exact clearPixel_frame W H s py acc (x + dx) (by omega) (by omega) i hout

theorem clearRegion_frame (W H : Nat) (x y w h : Int) (scr : Option RGBAImage)
    (b : Buf) (i : Int) (hout : outOfBuf W H i) :
    clearRegion W H x y w h scr b i = b i := by
  unfold clearRegion
  cases scr with
  | none => rfl
  | some s =>
    apply foldl_apply_frame
    intro acc dy _
    exact clearRow_frame W H s x w acc (y + dy) i hout

theorem drawSelectionBorder_frame (W H : Nat) (x y w h : Int) (b : Buf)
    (i : Int) (hout : outOfBuf W H i) :
    drawSelectionBorder W H x y w h b i = b i := by
  unfold drawSelectionBorder
  apply foldl_apply_frame
  intro acc t _
  dsimp only
  rw [foldl_apply_frame _ _ _ i (fun acc2 k _ => setGuarded_frame W H acc2 _ _ _ i hout)]
  rw [foldl_apply_frame _ _ _ i (fun acc2 k _ => setGuarded_frame W H acc2 _ _ _ i hout)]
  rw [foldl_apply_frame _ _ _ i (fun acc2 k _ => setGuarded_frame W H acc2 _ _ _ i hout)]
  rw [foldl_apply_frame _ _ _ i (fun acc2 k _ => setGuarded_frame W H acc2 _ _ _ i hout)]

theorem drawCornerHandles_frame (W H : Nat) (x y w h : Int) (b : Buf)
    (i : Int) (hout : outOfBuf W H i) :
    drawCornerHandles W H x y w h b i = b i := by
  unfold drawCornerHandles
  apply foldl_apply_frame
  intro acc c _
  dsimp only
  apply foldl_apply_frame
  intro acc1 dy _
  dsimp only
  apply foldl_apply_frame
  intro acc2 dx _
  exact setGuarded_frame W H acc2 _ _ _ i hout

theorem drawGlyph_frame (W H : Nat) (x0 y0 : Int) (glyph : List Nat)
    (color : Nat) (b : Buf) (i : Int) (hout : outOfBuf W H i) :
    drawGlyph W H x0 y0 glyph color b i = b i := by
  unfold drawGlyph
  apply foldl_apply_frame
  intro acc cb _
  dsimp only
  apply foldl_apply_frame
  intro acc2 row _
  dsimp only
  split
  · exact setGuarded_frame W H acc2 _ _ _ i hout
  · rfl

theorem drawTextRun_frame (W H : Nat) (font : Char → Option (List Nat))
    (y : Int) (i : Int) (hout : outOfBuf W H i) :
    ∀ (text : List Char) (b : Buf) (x : Int),
      drawTextRun W H font x y text b i = b i := by
  intro text
  unfold drawTextRun
  induction text with
  | nil => intro b x; rfl
  | cons ch rest ih =>
    intro b x
    rw [List.foldl_cons]
    cases hfc : font ch with
    | none =>
      simp only [hfc]
      exact ih b (x + 6)
    | some glyph =>
      simp only [hfc]
      rw [ih (drawGlyph W H x y glyph whiteColor b) (x + 6)]
      exact drawGlyph_frame W H x y glyph whiteColor b i hout

theorem drawSizeIndicator_frame (W H : Nat) (x y w h : Int) (b : Buf)
    (i : Int) (hout : outOfBuf W H i) :
    drawSizeIndicator W H x y w h b i = b i := by
  unfold drawSizeIndicator
  rw [drawTextRun_frame W H fontDigits _ i hout]
  apply foldl_apply_frame
  intro acc dy _
  dsimp only
  apply foldl_apply_frame
  intro acc2 dx _
  exact setGuarded_frame W H acc2 _ _ _ i hout

theorem drawInstructions_frame (W H : Nat) (sel : Selection) (b : Buf)
    (i : Int) (hout : outOfBuf W H i) :
    drawInstructions W H sel b i = b i := by
  unfold drawInstructions
  rw [drawTextRun_frame W H fontInstr _ i hout]
  apply foldl_apply_frame
  intro acc dy _
  dsimp only
  apply foldl_apply_frame
  intro acc2 dx _
  exact setGuarded_frame W H acc2 _ _ _ i hout

theorem rowIdx_ne (W : Nat) (py1 py2 px1 px2 : Int)
    (h1 : 0 ≤ px1) (h2 : px1 < (W : Int)) (h3 : 0 ≤ px2) (h4 : px2 < (W : Int))
    (hne : py1 ≠ py2) : py1 * (W : Int) + px1 ≠ py2 * (W : Int) + px2 := by
  intro heq
  rcases lt_or_gt_of_ne hne with hlt | hgt
  · have h5 : (py1 + 1) * (W : Int) ≤ py2 * (W : Int) :=
      mul_le_mul_of_nonneg_right (by omega) (Int.natCast_nonneg W)
    rw [add_mul, one_mul] at h5
    linarith
  · have h5 : (py2 + 1) * (W : Int) ≤ py1 * (W : Int) :=
      mul_le_mul_of_nonneg_right (by omega) (Int.natCast_nonneg W)
    rw [add_mul, one_mul] at h5
    linarith

theorem clearRow_fold_hit (W H : Nat) (s : RGBAImage) (x py : Int) :
    ∀ (n : Nat) (b : Buf) (dxt : Nat), dxt < n →
      0 ≤ x + (dxt : Int) → x + (dxt : Int) < (W : Int) →
      x + (dxt : Int) < (s.width : Int) →
      ((List.range n).foldl (fun b2 (dx : Nat) => clearPixel W H s py b2 (x + (dx : Int))) b)
          (py * (W : Int) + (x + (dxt : Int))) =
        packBGRA (pixByte s (py * (s.stride : Int) + (x + (dxt : Int)) * 4))
          (pixByte s (py * (s.stride : Int) + (x + (dxt : Int)) * 4 + 1))
          (pixByte s (py * (s.stride : Int) + (x + (dxt : Int)) * 4 + 2)) := by
  intro n
  induction n with
  | zero => intro b dxt h; omega
  | succ n ih =>
    intro b dxt hdx h0 hWb hsw
    rw [List.range_succ, List.foldl_append, List.foldl_cons, List.foldl_nil]
    by_cases he : dxt = n
    · subst he
      unfold clearPixel
      rw [if_neg (by push_neg; exact ⟨by omega, by omega, by omega⟩)]
      unfold updBuf
      rw [if_pos rfl]
    · have hlt : dxt < n := by omega
      have hne : py * (W : Int) + (x + (dxt : Int)) ≠
          py * (W : Int) + (x + (n : Int)) := by omega
      unfold clearPixel
      split
      · exact ih _ dxt hlt h0 hWb hsw
      · unfold updBuf
        rw [if_neg hne]
        exact ih _ dxt hlt h0 hWb hsw

theorem clearRow_fold_other (W H : Nat) (s : RGBAImage) (x py : Int)
    (n : Nat) (b : Buf) (pyT pxT : Int) (h1 : 0 ≤ pxT) (h2 : pxT < (W : Int))
    (hne : py ≠ pyT) :
    ((List.range n).foldl (fun b2 (dx : Nat) => clearPixel W H s py b2 (x + (dx : Int))) b)
        (pyT * (W : Int) + pxT) = b (pyT * (W : Int) + pxT) := by
  apply foldl_apply_frame
  intro acc dx _
  dsimp only
  unfold clearPixel
  split
  · rfl
  · rename_i hg
    push_neg at hg
    unfold updBuf
    rw [if_neg (rowIdx_ne W pyT py pxT (x + (dx : Int)) h1 h2 hg.1
      (by omega) (fun hh => hne hh.symm))]

theorem clearRegion_hit (W H : Nat) (s : RGBAImage) (x y w h : Int) (b : Buf)
    (pxT pyT : Int)
    (hx1 : x ≤ pxT) (hx2 : pxT < x + w)
    (hy1 : y ≤ pyT) (hy2 : pyT < y + h)
    (hbx1 : 0 ≤ pxT) (hbx2 : pxT < (W : Int)) (hsx : pxT < (s.width : Int))
    (hby1 : 0 ≤ pyT) (hby2 : pyT < (H : Int)) (hsy : pyT < (s.height : Int)) :
    clearRegion W H x y w h (some s) b (pyT * (W : Int) + pxT) =
      packBGRA (pixByte s (pyT * (s.stride : Int) + pxT * 4))
        (pixByte s (pyT * (s.stride : Int) + pxT * 4 + 1))
        (pixByte s (pyT * (s.stride : Int) + pxT * 4 + 2)) := by
  unfold clearRegion
  have main : ∀ (n : Nat) (b0 : Buf), (pyT - y).toNat < n → (y + (n : Int)) ≤ y + h →
      ((List.range n).foldl (fun b1 (dy : Nat) => clearRow W H s x w b1 (y + (dy : Int))) b0)
          (pyT * (W : Int) + pxT) =
        packBGRA (pixByte s (pyT * (s.stride : Int) + pxT * 4))
          (pixByte s (pyT * (s.stride : Int) + pxT * 4 + 1))
          (pixByte s (pyT * (s.stride : Int) + pxT * 4 + 2)) := by
    intro n
    induction n with
    | zero => intro b0 hcon _; omega
    | succ n ih =>
      intro b0 hdy hn
      rw [List.range_succ, List.foldl_append, List.foldl_cons, List.foldl_nil]
      by_cases he : pyT = y + (n : Int)
      · subst he
        unfold clearRow
        rw [if_neg (by push_neg; exact ⟨by omega, by omega, by omega⟩)]
        have hdxt : x + (((pxT - x).toNat : Nat) : Int) = pxT := by omega
        have happ := clearRow_fold_hit W H s x (y + (n : Int)) w.toNat
          ((List.range n).foldl (fun b1 (dy : Nat) => clearRow W H s x w b1 (y + (dy : Int))) b0)
          (pxT - x).toNat (by omega) (by omega) (by omega) (by omega)
        rw [hdxt] at happ
        exact happ
      · unfold clearRow
        split
        · exact ih b0 (by omega) (by omega)
        · rw [clearRow_fold_other W H s x (y + (n : Int)) w.toNat _ pyT pxT
            hbx1 hbx2 (fun hh => he hh.symm)]
          exact ih b0 (by omega) (by omega)
  exact main h.toNat b (by omega) (by omega)

theorem drawOverlay_frame (W H : Nat) (scr : Option RGBAImage) (sel : Selection)
    (scale : Int → Int) (b : Buf) (i : Int) (hout : outOfBuf W H i) :
    drawOverlay W H scr sel scale b i = b i := by
  unfold drawOverlay
  dsimp only
  rw [drawInstructions_frame W H sel _ i hout]
  by_cases hd : sel.isDragging
  · rw [if_pos hd]
    rw [drawSizeIndicator_frame W H _ _ _ _ _ i hout,
      drawCornerHandles_frame W H _ _ _ _ _ i hout,
      drawSelectionBorder_frame W H _ _ _ _ _ i hout,
      clearRegion_frame W H _ _ _ _ _ _ i hout,
      fillOverlay_frame W H 128 _ i hout,
      drawScreenshot_frame W H scr b i hout]
  · rw [if_neg hd]
    rw [fillOverlay_frame W H 128 _ i hout,
      drawScreenshot_frame W H scr b i hout]

theorem rhe_le (a b : Nat) : rhe a b ≤ a / b + 1 := by
  unfold rhe
  dsimp only
  split_ifs <;> omega

theorem log2f_le115 (t : Nat) (ht : t < 2 ^ 116) : log2f t ≤ 115 := by
  unfold log2f
  dsimp only
  split_ifs <;> omega

set_option maxRecDepth 4000 in
theorem factor_le_one :
    ∀ a, a < 255 → (flQ (255 - a) 255).1 ≤ 2 ^ (flQ (255 - a) 255).2 := by
  decide

set_option maxRecDepth 4000 in
theorem goFloatScale_zero : ∀ c, c < 256 → goFloatScale 0 c = c := by decide

theorem goFloatScale_white128 : goFloatScale 127 255 = 128 := by decide

theorem flQ_floor_le (A B m : Nat) (hB : 0 < B) (hA : A ≤ m * B)
    (hm : m < 2 ^ 40) : (flQ A B).1 / 2 ^ (flQ A B).2 ≤ m := by
  unfold flQ
  by_cases hz : A = 0
  · rw [if_pos hz]
    simp
  · rw [if_neg hz]
    dsimp only
    set k2 := 116 - log2f (A * 18446744073709551616 / B) with hk
    have ht : A * 18446744073709551616 / B < 2 ^ 116 := by
      have h1 : A * 18446744073709551616 ≤ m * B * 18446744073709551616 :=
        Nat.mul_le_mul_right _ hA
      have h2 : A * 18446744073709551616 / B ≤
          m * B * 18446744073709551616 / B := Nat.div_le_div_right h1
      have h3 : m * B * 18446744073709551616 / B = m * 18446744073709551616 := by
        rw [Nat.mul_right_comm]
        exact Nat.mul_div_cancel _ hB
      rw [h3] at h2
      calc A * 18446744073709551616 / B ≤ m * 18446744073709551616 := h2
        _ < 2 ^ 40 * 18446744073709551616 := by
            exact (Nat.mul_lt_mul_right
              (by norm_num : (0 : Nat) < 18446744073709551616)).mpr hm
        _ < 2 ^ 116 := by norm_num
    have hk2 : 1 ≤ k2 := by
      have := log2f_le115 _ ht
      omega
    have hnp := rhe_le (A * 2 ^ k2) B
    have hdiv : A * 2 ^ k2 / B ≤ m * 2 ^ k2 := by
      have h1 : A * 2 ^ k2 ≤ m * B * 2 ^ k2 := Nat.mul_le_mul_right _ hA
      have h2 : A * 2 ^ k2 / B ≤ m * B * 2 ^ k2 / B := Nat.div_le_div_right h1
      have h3 : m * B * 2 ^ k2 / B = m * 2 ^ k2 := by
        rw [Nat.mul_right_comm]
        exact Nat.mul_div_cancel _ hB
      rw [h3] at h2
      exact h2
    have h2k : 2 ≤ 2 ^ k2 := by
      calc 2 = 2 ^ 1 := by norm_num
        _ ≤ 2 ^ k2 := Nat.pow_le_pow_right (by omega) hk2
    have hexp : (m + 1) * 2 ^ k2 = m * 2 ^ k2 + 2 ^ k2 := by ring
    have hlt : rhe (A * 2 ^ k2) B < (m + 1) * 2 ^ k2 := by omega
    have hfin := (Nat.div_lt_iff_lt_mul (by omega : 0 < 2 ^ k2)).mpr hlt
    omega

theorem goFloatScale_le (a c : Nat) (ha : a < 256) (hc : c < 256) :
    goFloatScale a c ≤ 255 := by
  by_cases ha255 : a = 255
  · subst ha255
    simp [goFloatScale, flQ]
  · have hfac := factor_le_one a (by omega)
    unfold goFloatScale
    dsimp only
    apply flQ_floor_le
    · exact Nat.pos_pow_of_pos _ (by omega)
    · calc c * (flQ (255 - a) 255).1 ≤ 255 * (flQ (255 - a) 255).1 :=
          Nat.mul_le_mul_right _ (by omega)
        _ ≤ 255 * 2 ^ (flQ (255 - a) 255).2 := Nat.mul_le_mul_left _ hfac
    · norm_num

/-! ### Claim theorems -/

/-- C1: the claim states that `GetClipboardImage` never reads a byte outside
the declared buffer length, for every header the buffer may declare including
`BiSize` larger than the declared length. The code violates this: with
declared length 40 and `BiSize = 44` the unsigned `uintptr` subtraction
`size - pixelOffset` wraps to 2^64 - 4, the layout check passes, and the
pixel bytes at offsets 44-46 — outside the declared buffer — are read, as
shown by two buffers identical below the declared length decoding to
different images. -/
theorem getClipboardImage_reads_past_declared_length :
    (∀ i, i < 40 → c1memA i = c1memB i) ∧
    getClipboardImage (okEnv 40 c1memA) = .ok ⟨1, 1, [⟨0, 0, 0, 255⟩]⟩ ∧
    getClipboardImage (okEnv 40 c1memB) = .ok ⟨1, 1, [⟨0, 0, 7, 255⟩]⟩ ∧
    getClipboardImage (okEnv 40 c1memA) ≠ getClipboardImage (okEnv 40 c1memB) := by
  refine ⟨by decide, by decide, by decide, by decide⟩

/-- C2 counterexample: the claim states that a buffer whose bit depth is not
24 or 32 and whose declared length is also too small fails with
`UnsupportedDepth`. On the code, the 16-bit 1×1 buffer `c2mem` with declared
length 40 (4 bytes short of its layout) fails with `InvalidLayout` instead:
the layout check runs before the bit-depth switch. -/
theorem c2_depth16_short_buffer_fails_invalidLayout :
    getClipboardImage (okEnv 40 c2mem) = .error .invalidLayout ∧
    getClipboardImage (okEnv 40 c2mem) ≠ .error .unsupportedDepth := by
  refine ⟨by decide, by decide⟩

/-- C2 amended: validation has a distinct error per step, but the
buffer-layout check is decided before the bit-depth check: for every buffer
whose bit depth is not 24 or 32 (and valid dimensions), `GetClipboardImage`
returns `InvalidLayout` exactly when the code's layout comparison — declared
length minus pixel offset in wrapping unsigned `uintptr` arithmetic,
compared against stride×height mod 2^64 — fires, and `UnsupportedDepth`
otherwise; in particular a too-small buffer whose header size field does not
exceed the declared length fails with `InvalidLayout`, while one whose
header size field exceeds the declared length falls to the unsigned
underflow of C1, passes the layout check, and fails with
`UnsupportedDepth`. -/
theorem decode_layout_check_precedes_depth_check (env : ClipEnv)
    (h1 : env.formatAvailable ≠ 0) (h2 : env.openRet ≠ 0) (h3 : env.hData ≠ 0)
    (h4 : env.lockPtr ≠ 0) (h5 : env.globalSize ≠ 0)
    (h6 : env.globalSize ≤ maxClipboardSize)
    (hw : 0 < biWidth env.mem) (hh : 0 < heightAbs env.mem)
    (h24 : biBitCount env.mem ≠ 24) (h32 : biBitCount env.mem ≠ 32) :
    getClipboardImage env =
      if dataSize env.globalSize env.mem < expectedSize env.mem then
        Except.error ClipErr.invalidLayout
      else Except.error ClipErr.unsupportedDepth := by
  unfold getClipboardImage
  rw [if_neg h1, if_neg h2, if_neg h3, if_neg h4, if_neg h5, if_neg (by omega)]
  unfold decodeDIB
  rw [if_neg (by push_neg; exact ⟨hw, hh⟩)]
  by_cases hlt : dataSize env.globalSize env.mem < expectedSize env.mem
  · rw [if_pos hlt, if_pos hlt]
  · rw [if_neg hlt, if_neg hlt, if_neg h24, if_neg h32]

/-- C2 amended, witness: the order theorem applied to the concrete 16-bit
short buffer `c2mem` (whose layout comparison fires, giving
`InvalidLayout`). -/
theorem decode_layout_check_precedes_depth_check_witness :
    getClipboardImage (okEnv 40 c2mem) =
      if dataSize 40 c2mem < expectedSize c2mem then
        Except.error ClipErr.invalidLayout
      else Except.error ClipErr.unsupportedDepth :=
  decode_layout_check_precedes_depth_check (okEnv 40 c2mem) (by decide)
    (by decide) (by decide) (by decide) (by decide) (by decide) (by decide)
    (by decide) (by decide) (by decide)

/-- C9: `GetClipboardImage` returns the identical error value
`ErrNoImageInClipboard` both when the DIB format is unavailable before the
clipboard is opened and when the clipboard-data handle is null after a
successful open, so a not-found result does not identify which of the two
conditions occurred. -/
theorem errNoImage_shared_between_absent_format_and_null_handle
    (e1 e2 : ClipEnv) (h1 : e1.formatAvailable = 0)
    (h2a : e2.formatAvailable ≠ 0) (h2b : e2.openRet ≠ 0) (h2c : e2.hData = 0) :
    getClipboardImage e1 = .error .noImageInClipboard ∧
    getClipboardImage e2 = .error .noImageInClipboard := by
  constructor
  · unfold getClipboardImage
    rw [if_pos h1]
  · unfold getClipboardImage
    rw [if_neg h2a, if_neg h2b, if_pos h2c]

/-- C3 counterexample: the claim states that for every well-formed buffer
every decoded pixel has alpha 255. The well-formed 1×1 32-bit buffer
`c3mem` (source alpha 128) decodes successfully to a single pixel whose
alpha is 128, not 255. -/
theorem c3_nonzero_alpha_counterexample :
    getClipboardImage (okEnv 44 c3mem) = .ok ⟨1, 1, [⟨30, 20, 10, 128⟩]⟩ ∧
    (Pixel.mk 30 20 10 128).a ≠ 255 := by
  refine ⟨by decide, by decide⟩

/-- C3 amended: for every well-formed buffer (bit depth 24 or 32, width > 0,
|height| > 0, declared length at least pixel offset plus stride×height, and
every API call succeeding), `GetClipboardImage` succeeds with exactly W×H
pixels and every decoded pixel has nonzero alpha; alpha is always 255 when
the bit depth is 24 (for 32-bit buffers a nonzero source alpha is kept). -/
theorem wellformed_decode_succeeds (env : ClipEnv)
    (h1 : env.formatAvailable ≠ 0) (h2 : env.openRet ≠ 0) (h3 : env.hData ≠ 0)
    (h4 : env.lockPtr ≠ 0) (h5 : env.globalSize ≠ 0)
    (h6 : env.globalSize ≤ maxClipboardSize)
    (hw : 0 < biWidth env.mem) (hh : 0 < heightAbs env.mem)
    (hbc : biBitCount env.mem = 24 ∨ biBitCount env.mem = 32)
    (hfit : pixelOffset env.mem + rowSize env.mem * Ht env.mem ≤ env.globalSize) :
    ∃ img, getClipboardImage env = .ok img ∧
      img.pix.length = Wd env.mem * Ht env.mem ∧
      ∀ p ∈ img.pix, p.a ≠ 0 ∧ (biBitCount env.mem = 24 → p.a = 255) := by
  have hsz : env.globalSize < 2 ^ 64 := by
    have h6' := h6; unfold maxClipboardSize at h6'; omega
  have hnl := dataSize_not_lt env.globalSize env.mem hsz hfit
  unfold getClipboardImage
  rw [if_neg h1, if_neg h2, if_neg h3, if_neg h4, if_neg h5, if_neg (by omega)]
  unfold decodeDIB
  rw [if_neg (by push_neg; exact ⟨hw, hh⟩), if_neg hnl]
  rcases hbc with h24 | h32
  · rw [if_pos h24]
    refine ⟨_, rfl, ?_, ?_⟩
    · rw [decodePixels_length]; ring
    · intro p hp
      obtain ⟨y, x, hy, hx, rfl⟩ := decodePixels_mem _ _ _ hp
      unfold decodePixel24
      exact ⟨by simp, fun _ => rfl⟩
  · rw [if_neg (by omega), if_pos h32]
    refine ⟨_, rfl, ?_, ?_⟩
    · rw [decodePixels_length]; ring
    · intro p hp
      obtain ⟨y, x, hy, hx, rfl⟩ := decodePixels_mem _ _ _ hp
      unfold decodePixel32
      constructor
      · by_cases hz : byteAt env.mem (pixAddr env.mem 4 y x + 3) = 0
        · simp [hz]
        · simp [hz]
      · intro h24'; omega

/-- C3 amended, witness: the success theorem applied to the concrete
well-formed buffer `c3mem`. -/
theorem wellformed_decode_succeeds_witness :
    ∃ img, getClipboardImage (okEnv 44 c3mem) = .ok img ∧
      img.pix.length = Wd c3mem * Ht c3mem ∧
      ∀ p ∈ img.pix, p.a ≠ 0 ∧ (biBitCount c3mem = 24 → p.a = 255) :=
  wellformed_decode_succeeds (okEnv 44 c3mem) (by decide) (by decide)
    (by decide) (by decide) (by decide) (by decide) (by decide) (by decide)
    (by decide) (by decide)

/-- C4: for every well-formed 32-bit buffer, the decoded pixel at logical
coordinates (x,y) is exactly (R,G,B, A == 0 ? 255 : A) of the source
quadruplet (B,G,R,A) stored at the pixel's source address: source alpha 0
becomes 255 and every nonzero source alpha is preserved unchanged. -/
theorem decode32_pixel_conversion_rule (env : ClipEnv)
    (h1 : env.formatAvailable ≠ 0) (h2 : env.openRet ≠ 0) (h3 : env.hData ≠ 0)
    (h4 : env.lockPtr ≠ 0) (h5 : env.globalSize ≠ 0)
    (h6 : env.globalSize ≤ maxClipboardSize)
    (hw : 0 < biWidth env.mem) (hh : 0 < heightAbs env.mem)
    (h32 : biBitCount env.mem = 32)
    (hfit : pixelOffset env.mem + rowSize env.mem * Ht env.mem ≤ env.globalSize)
    (y x : Nat) (hy : y < Ht env.mem) (hx : x < Wd env.mem) :
    ∃ img, getClipboardImage env = .ok img ∧ img.width = Wd env.mem ∧
      img.pix[y * Wd env.mem + x]? = some
        ⟨byteAt env.mem (pixAddr env.mem 4 y x + 2),
         byteAt env.mem (pixAddr env.mem 4 y x + 1),
         byteAt env.mem (pixAddr env.mem 4 y x),
         if byteAt env.mem (pixAddr env.mem 4 y x + 3) = 0 then 255
         else byteAt env.mem (pixAddr env.mem 4 y x + 3)⟩ := by
  have hsz : env.globalSize < 2 ^ 64 := by
    have h6' := h6; unfold maxClipboardSize at h6'; omega
  have hnl := dataSize_not_lt env.globalSize env.mem hsz hfit
  unfold getClipboardImage
  rw [if_neg h1, if_neg h2, if_neg h3, if_neg h4, if_neg h5, if_neg (by omega)]
  unfold decodeDIB
  rw [if_neg (by push_neg; exact ⟨hw, hh⟩), if_neg hnl, if_neg (by omega),
    if_pos h32]
  refine ⟨_, rfl, rfl, ?_⟩
  rw [decodePixels_getElem _ _ y x hy hx]
  rfl

/-- C4 witness: the conversion rule applied to the 1×1 32-bit buffer
`c3mem`; its source quadruplet (10,20,30,128) has nonzero alpha 128, which
the rule keeps unchanged. -/
theorem decode32_pixel_conversion_rule_witness :
    ∃ img, getClipboardImage (okEnv 44 c3mem) = .ok img ∧
      img.width = Wd c3mem ∧
      img.pix[0 * Wd c3mem + 0]? = some
        ⟨byteAt c3mem (pixAddr c3mem 4 0 0 + 2),
         byteAt c3mem (pixAddr c3mem 4 0 0 + 1),
         byteAt c3mem (pixAddr c3mem 4 0 0),
         if byteAt c3mem (pixAddr c3mem 4 0 0 + 3) = 0 then 255
         else byteAt c3mem (pixAddr c3mem 4 0 0 + 3)⟩ :=
  decode32_pixel_conversion_rule (okEnv 44 c3mem) (by decide) (by decide)
    (by decide) (by decide) (by decide) (by decide) (by decide) (by decide)
    (by decide) (by decide) 0 0 (by decide) (by decide)

/-- C5: a top-down buffer (negative header height) and a bottom-up buffer
(positive header height) that encode the same logical image — same width,
same |height|, same bit depth (24 or 32), same header size, and for every
logical row y the top-down source row y holds the same bytes as the
bottom-up source row height-1-y — decode to identical output. -/
theorem topdown_bottomup_decode_identical (size : Nat) (mem1 mem2 : Nat → Nat)
    (hsz0 : size ≠ 0) (hcap : size ≤ maxClipboardSize)
    (hW : biWidth mem1 = biWidth mem2) (hWpos : 0 < biWidth mem1)
    (hneg : biHeight mem1 < 0) (hpos : 0 < biHeight mem2)
    (hHeq : -biHeight mem1 = biHeight mem2)
    (hbs : biSize mem1 = biSize mem2)
    (hbc : biBitCount mem1 = biBitCount mem2)
    (hbc2432 : biBitCount mem1 = 24 ∨ biBitCount mem1 = 32)
    (hfit : pixelOffset mem1 + rowSize mem1 * Ht mem1 ≤ size)
    (hrows : ∀ y, y < Ht mem1 → ∀ j, j < rowSize mem1 →
        mem1 (pixelOffset mem1 + y * rowSize mem1 + j) =
          mem2 (pixelOffset mem2 + (Ht mem1 - 1 - y) * rowSize mem2 + j)) :
    getClipboardImage (okEnv size mem1) = getClipboardImage (okEnv size mem2) := by
  have hsz : size < 2 ^ 64 := by
    have h6' := hcap; unfold maxClipboardSize at h6'; omega
  have habs : heightAbs mem1 = heightAbs mem2 := by
    unfold heightAbs
    rw [if_pos hneg, if_neg (by omega)]
    omega
  have hHt : Ht mem1 = Ht mem2 := by unfold Ht; rw [habs]
  have hWd : Wd mem1 = Wd mem2 := by unfold Wd; rw [hW]
  have hrs : rowSize mem1 = rowSize mem2 := by unfold rowSize; rw [hWd, hbc]
  have hb8 : ¬ biBitCount mem1 ≤ 8 := by omega
  have hpo : pixelOffset mem1 = pixelOffset mem2 := by
    unfold pixelOffset
    rw [if_neg hb8, if_neg (by omega : ¬ biBitCount mem2 ≤ 8)]
    exact hbs
  have hes : expectedSize mem1 = expectedSize mem2 := by
    unfold expectedSize; rw [hrs, hHt]
  have hds : dataSize size mem1 = dataSize size mem2 := by
    unfold dataSize; rw [hpo]
  have hbu1 : bottomUp mem1 = false := by
    unfold bottomUp; rw [decide_eq_false_iff_not]; omega
  have hbu2 : bottomUp mem2 = true := by
    unfold bottomUp; rw [decide_eq_true_eq]; omega
  have hsr1 : ∀ y, srcRow mem1 y = y := by
    intro y; unfold srcRow; rw [hbu1]; simp
  have hsr2 : ∀ y, srcRow mem2 y = Ht mem1 - 1 - y := by
    intro y; unfold srcRow; rw [hbu2, ← hHt]; simp
  have hfit2 : pixelOffset mem2 + rowSize mem2 * Ht mem2 ≤ size := by
    rw [← hpo, ← hrs, ← hHt]; exact hfit
  have haddr : ∀ bpp y x k, y < Ht mem1 → x * bpp + k < rowSize mem1 →
      mem1 (pixAddr mem1 bpp y x + k) = mem2 (pixAddr mem2 bpp y x + k) := by
    intro bpp y x k hy hxk
    have hx1 : x * bpp < rowSize mem1 := by omega
    rw [pixAddr_eq mem1 bpp y x size hsz hfit hy hx1,
      pixAddr_eq mem2 bpp y x size hsz hfit2 (by omega) (by omega)]
    rw [hsr1, hsr2]
    have key := hrows y hy (x * bpp + k) hxk
    have hA : pixelOffset mem1 + y * rowSize mem1 + x * bpp + k =
        pixelOffset mem1 + y * rowSize mem1 + (x * bpp + k) := by omega
    have hB : pixelOffset mem2 + (Ht mem1 - 1 - y) * rowSize mem2 + x * bpp + k =
        pixelOffset mem2 + (Ht mem1 - 1 - y) * rowSize mem2 + (x * bpp + k) := by
      omega
    rw [hA, hB]
    exact key
  have hbyte : ∀ bpp y x k, y < Ht mem1 → x * bpp + k < rowSize mem1 →
      byteAt mem1 (pixAddr mem1 bpp y x + k) = byteAt mem2 (pixAddr mem2 bpp y x + k) := by
    intro bpp y x k hy hxk
    unfold byteAt
    rw [haddr bpp y x k hy hxk]
  have hbyte0 : ∀ bpp y x, y < Ht mem1 → x * bpp < rowSize mem1 →
      byteAt mem1 (pixAddr mem1 bpp y x) = byteAt mem2 (pixAddr mem2 bpp y x) := by
    intro bpp y x hy hxk
    have := hbyte bpp y x 0 hy (by omega)
    simpa using this
  have hh1 : 0 < heightAbs mem1 := by unfold heightAbs; rw [if_pos hneg]; omega
  have hdim1 : ¬ (biWidth mem1 ≤ 0 ∨ heightAbs mem1 ≤ 0) := by
    push_neg; exact ⟨hWpos, hh1⟩
  have hdim2 : ¬ (biWidth mem2 ≤ 0 ∨ heightAbs mem2 ≤ 0) := by
    push_neg
    refine ⟨by omega, ?_⟩
    rw [← habs]; exact hh1
  rw [getClipboardImage_okEnv size mem1 hsz0 hcap,
    getClipboardImage_okEnv size mem2 hsz0 hcap]
  unfold decodeDIB
  rw [if_neg hdim1, if_neg hdim2, hds, hes]
  by_cases hlt : dataSize size mem2 < expectedSize mem2
  · rw [if_pos hlt, if_pos hlt]
  · rw [if_neg hlt, if_neg hlt]
    rcases hbc2432 with h24 | h32
    · have hrow24 : 3 * Wd mem1 ≤ rowSize mem1 := rowSize_ge_24 mem1 h24
      have hpix : decodePixels mem1 (decodePixel24 mem1) =
          decodePixels mem2 (decodePixel24 mem2) := by
        unfold decodePixels
        rw [← hHt, ← hWd]
        apply congrArg List.flatten
        apply List.map_congr_left
        intro y hy
        apply List.map_congr_left
        intro x hx
        rw [List.mem_range] at hy hx
        unfold decodePixel24
        rw [hbyte 3 y x 2 hy (by omega), hbyte 3 y x 1 hy (by omega),
          hbyte0 3 y x hy (by omega)]
      rw [if_pos h24, if_pos (show biBitCount mem2 = 24 by omega), hpix, hWd, hHt]
    · have hrow32 : rowSize mem1 = 4 * Wd mem1 := rowSize_eq_32 mem1 h32
      have hpix : decodePixels mem1 (decodePixel32 mem1) =
          decodePixels mem2 (decodePixel32 mem2) := by
        unfold decodePixels
        rw [← hHt, ← hWd]
        apply congrArg List.flatten
        apply List.map_congr_left
        intro y hy
        apply List.map_congr_left
        intro x hx
        rw [List.mem_range] at hy hx
        unfold decodePixel32
        rw [hbyte 4 y x 3 hy (by omega), hbyte 4 y x 2 hy (by omega),
          hbyte 4 y x 1 hy (by omega), hbyte0 4 y x hy (by omega)]
      rw [if_neg (show ¬ biBitCount mem1 = 24 by omega),
        if_neg (show ¬ biBitCount mem2 = 24 by omega),
        if_pos h32, if_pos (show biBitCount mem2 = 32 by omega), hpix, hWd, hHt]

/-- C5 witness: the row-order theorem applied to the concrete top-down
buffer `c5mem1` and bottom-up buffer `c5mem2` encoding the same 1×2 image. -/
theorem topdown_bottomup_decode_identical_witness :
    getClipboardImage (okEnv 48 c5mem1) = getClipboardImage (okEnv 48 c5mem2) :=
  topdown_bottomup_decode_identical 48 c5mem1 c5mem2 (by decide) (by decide)
    (by decide) (by decide) (by decide) (by decide) (by decide) (by decide)
    (by decide) (by decide) (by decide) (by decide)

/-- C10 counterexample: the claim states that two buffers differing only in
the compression field decode identically. The buffers `c10memA`/`c10memB`
differ only at byte 16 (inside `BiCompression`), yet because their header
declares `BiSize = 16` the single 32-bit pixel is read from bytes 16-19 and
the decoded images differ. -/
theorem c10_compression_bytes_reach_pixels_counterexample :
    (∀ i, ¬ headerSlack i → c10memA i = c10memB i) ∧
    getClipboardImage (okEnv 20 c10memA) = .ok ⟨1, 1, [⟨0, 0, 0, 255⟩]⟩ ∧
    getClipboardImage (okEnv 20 c10memB) = .ok ⟨1, 1, [⟨0, 0, 9, 255⟩]⟩ ∧
    getClipboardImage (okEnv 20 c10memA) ≠ getClipboardImage (okEnv 20 c10memB) := by
  refine ⟨?_, by decide, by decide, by decide⟩
  intro i hi
  have h16 : i ≠ 16 := by
    intro h
    exact hi (by unfold headerSlack; omega)
  simp [c10memB, h16]

/-- C10 amended: the decoded result depends only on the header's size,
width, height, bit-count and color-table-count fields, the declared length
and the pixel bytes, provided the header's size field is at least the
40-byte header (so the pixel data does not overlap the header) and the
declared length genuinely covers pixel offset plus stride×height: two
buffers agreeing outside the planes, compression and declared-image-size
bytes then produce identical results — compressed data is decoded as
uncompressed, never rejected. -/
theorem decode_ignores_planes_compression_sizeimage (size : Nat)
    (mem1 mem2 : Nat → Nat) (hbs40 : 40 ≤ biSize mem1)
    (hfit : pixelOffset mem1 + rowSize mem1 * Ht mem1 ≤ size)
    (hagree : ∀ i, ¬ headerSlack i → mem1 i = mem2 i) :
    getClipboardImage (okEnv size mem1) = getClipboardImage (okEnv size mem2) := by
  have hbyteEq : ∀ i, ¬ headerSlack i → byteAt mem1 i = byteAt mem2 i := by
    intro i hi; unfold byteAt; rw [hagree i hi]
  have hout : ∀ i, 24 ≤ i → byteAt mem1 i = byteAt mem2 i := by
    intro i hi
    exact hbyteEq i (by unfold headerSlack; omega)
  have hlow : ∀ i, i ≤ 11 → byteAt mem1 i = byteAt mem2 i := by
    intro i hi
    exact hbyteEq i (by unfold headerSlack; omega)
  have hbs : biSize mem1 = biSize mem2 := by
    unfold biSize leU32
    rw [hlow 0 (by omega), hlow 1 (by omega), hlow 2 (by omega), hlow 3 (by omega)]
  have hW : biWidth mem1 = biWidth mem2 := by
    unfold biWidth leU32
    rw [hlow 4 (by omega), hlow 5 (by omega), hlow 6 (by omega), hlow 7 (by omega)]
  have hH : biHeight mem1 = biHeight mem2 := by
    unfold biHeight leU32
    rw [hlow 8 (by omega), hlow 9 (by omega), hlow 10 (by omega), hlow 11 (by omega)]
  have hbc : biBitCount mem1 = biBitCount mem2 := by
    unfold biBitCount leU16
    rw [hbyteEq 14 (by unfold headerSlack; omega),
      hbyteEq 15 (by unfold headerSlack; omega)]
  have hcu : biClrUsed mem1 = biClrUsed mem2 := by
    unfold biClrUsed leU32
    rw [hout 32 (by omega), hout 33 (by omega), hout 34 (by omega),
      hout 35 (by omega)]
  have habs : heightAbs mem1 = heightAbs mem2 := by unfold heightAbs; rw [hH]
  have hHt : Ht mem1 = Ht mem2 := by unfold Ht; rw [habs]
  have hWd : Wd mem1 = Wd mem2 := by unfold Wd; rw [hW]
  have hbu : bottomUp mem1 = bottomUp mem2 := by unfold bottomUp; rw [hH]
  have hrs : rowSize mem1 = rowSize mem2 := by unfold rowSize; rw [hWd, hbc]
  have hcts : colorTableSize mem1 = colorTableSize mem2 := by
    unfold colorTableSize; rw [hcu, hbc]
  have hpo : pixelOffset mem1 = pixelOffset mem2 := by
    unfold pixelOffset; rw [hbc, hcts, hbs]
  have hes : expectedSize mem1 = expectedSize mem2 := by
    unfold expectedSize; rw [hrs, hHt]
  have hds : dataSize size mem1 = dataSize size mem2 := by
    unfold dataSize; rw [hpo]
  have hsr : ∀ y, srcRow mem1 y = srcRow mem2 y := by
    intro y; unfold srcRow; rw [hbu, hHt]
  have hpa : ∀ bpp y x, pixAddr mem1 bpp y x = pixAddr mem2 bpp y x := by
    intro bpp y x; unfold pixAddr; rw [hpo, hsr, hrs]
  have hpo40 : 40 ≤ pixelOffset mem1 := by
    unfold pixelOffset; split <;> omega
  have haddr_ge : ∀ bpp y x, y < Ht mem1 → x * bpp < rowSize mem1 → size < 2 ^ 64 →
      40 ≤ pixAddr mem1 bpp y x := by
    intro bpp y x hy hxb hsz
    rw [pixAddr_eq mem1 bpp y x size hsz hfit hy hxb]
    omega
  by_cases h0 : size = 0
  · simp only [getClipboardImage, okEnv]
    rw [if_neg (by omega : ¬ (1 : Nat) = 0), if_neg (by omega : ¬ (1 : Nat) = 0),
      if_neg (by omega : ¬ (1 : Nat) = 0), if_neg (by omega : ¬ (1 : Nat) = 0),
      if_pos h0]
    rw [if_neg (by omega : ¬ (1 : Nat) = 0), if_neg (by omega : ¬ (1 : Nat) = 0),
      if_neg (by omega : ¬ (1 : Nat) = 0), if_neg (by omega : ¬ (1 : Nat) = 0),
      if_pos h0]
  by_cases hbig : maxClipboardSize < size
  · simp only [getClipboardImage, okEnv]
    rw [if_neg (by omega : ¬ (1 : Nat) = 0), if_neg (by omega : ¬ (1 : Nat) = 0),
      if_neg (by omega : ¬ (1 : Nat) = 0), if_neg (by omega : ¬ (1 : Nat) = 0),
      if_neg h0, if_pos hbig]
    rw [if_neg (by omega : ¬ (1 : Nat) = 0), if_neg (by omega : ¬ (1 : Nat) = 0),
      if_neg (by omega : ¬ (1 : Nat) = 0), if_neg (by omega : ¬ (1 : Nat) = 0),
      if_neg h0, if_pos hbig]
  have hsz : size < 2 ^ 64 := by
    unfold maxClipboardSize at hbig; omega
  rw [getClipboardImage_okEnv size mem1 h0 (by omega),
    getClipboardImage_okEnv size mem2 h0 (by omega)]
  unfold decodeDIB
  rw [hW, habs, hds, hes, hbc]
  by_cases hdim : biWidth mem2 ≤ 0 ∨ heightAbs mem2 ≤ 0
  · rw [if_pos hdim, if_pos hdim]
  rw [if_neg hdim, if_neg hdim]
  by_cases hlt : dataSize size mem2 < expectedSize mem2
  · rw [if_pos hlt, if_pos hlt]
  rw [if_neg hlt, if_neg hlt]
  have hbyte40 : ∀ bpp y x k, y < Ht mem1 → x * bpp < rowSize mem1 → k ≤ 3 →
      byteAt mem1 (pixAddr mem1 bpp y x + k) = byteAt mem2 (pixAddr mem2 bpp y x + k) := by
    intro bpp y x k hy hxb hk
    rw [← hpa]
    exact hout _ (by have := haddr_ge bpp y x hy hxb hsz; omega)
  by_cases h24 : biBitCount mem2 = 24
  · rw [if_pos h24, if_pos h24]
    have h24' : biBitCount mem1 = 24 := by omega
    have hrow24 : 3 * Wd mem1 ≤ rowSize mem1 := rowSize_ge_24 mem1 h24'
    have hpix : decodePixels mem1 (decodePixel24 mem1) =
        decodePixels mem2 (decodePixel24 mem2) := by
      unfold decodePixels
      rw [← hHt, ← hWd]
      apply congrArg List.flatten
      apply List.map_congr_left
      intro y hy
      apply List.map_congr_left
      intro x hx
      rw [List.mem_range] at hy hx
      unfold decodePixel24
      have hxb : x * 3 < rowSize mem1 := by omega
      rw [hbyte40 3 y x 2 hy hxb (by omega), hbyte40 3 y x 1 hy hxb (by omega)]
      have hb0 := hbyte40 3 y x 0 hy hxb (by omega)
      simp only [Nat.add_zero] at hb0
      rw [hb0]
    rw [hpix, hWd, hHt]
  rw [if_neg h24, if_neg h24]
  by_cases h32 : biBitCount mem2 = 32
  · rw [if_pos h32, if_pos h32]
    have h32' : biBitCount mem1 = 32 := by omega
    have hrow32 : rowSize mem1 = 4 * Wd mem1 := rowSize_eq_32 mem1 h32'
    have hpix : decodePixels mem1 (decodePixel32 mem1) =
        decodePixels mem2 (decodePixel32 mem2) := by
      unfold decodePixels
      rw [← hHt, ← hWd]
      apply congrArg List.flatten
      apply List.map_congr_left
      intro y hy
      apply List.map_congr_left
      intro x hx
      rw [List.mem_range] at hy hx
      unfold decodePixel32
      have hxb : x * 4 < rowSize mem1 := by omega
      rw [hbyte40 4 y x 3 hy hxb (by omega), hbyte40 4 y x 2 hy hxb (by omega),
        hbyte40 4 y x 1 hy hxb (by omega)]
      have hb0 := hbyte40 4 y x 0 hy hxb (by omega)
      simp only [Nat.add_zero] at hb0
      rw [hb0]
    rw [hpix, hWd, hHt]
  rw [if_neg h32, if_neg h32]

/-- C10 amended, witness: the noninterference theorem applied to the
concrete buffers `c10memC`/`c10memD`, which differ only at compression
byte 16 and whose header size is 40. -/
theorem decode_ignores_planes_compression_sizeimage_witness :
    getClipboardImage (okEnv 44 c10memC) = getClipboardImage (okEnv 44 c10memD) :=
  decode_ignores_planes_compression_sizeimage 44 c10memC c10memD (by decide)
    (by decide) (by
      intro i hi
      have h16 : i ≠ 16 := by
        intro h
        exact hi (by unfold headerSlack; omega)
      simp [c10memD, h16])

/-- C9 witness: the shared-error theorem applied to two concrete
environments (format absent; format present but null data handle). -/
theorem errNoImage_shared_witness :
    getClipboardImage ⟨0, 0, 0, 0, 0, fun _ => 0⟩ =
      .error .noImageInClipboard ∧
    getClipboardImage ⟨1, 1, 0, 0, 0, fun _ => 0⟩ =
      .error .noImageInClipboard :=
  errNoImage_shared_between_absent_format_and_null_handle
    ⟨0, 0, 0, 0, 0, fun _ => 0⟩ ⟨1, 1, 0, 0, 0, fun _ => 0⟩
    (by decide) (by decide) (by decide) (by decide)

/-- C6 counterexample: the claim states that darken with factor f scales
each channel by f/255 with integer truncation. At factor 195 on channel
value 153 the exact truncation is 153*195/255 = 117, but the code's
double-precision product is 116.99999999999999 and truncates to 116: the
decoded channel is 116, not 117. -/
theorem c6_exact_truncation_counterexample :
    darken 1 1 195 (fun _ => 153 * 2 ^ 16) 0 / 2 ^ 16 % 256 = 116 ∧
    153 * 195 / 255 = 117 ∧ (116 : Nat) ≠ 117 := by
  refine ⟨by decide, by decide, by decide⟩

/-- C6 amended: the darken primitive with factor f (the code's `fillOverlay`
with `alpha = 255 - f`, whose internal `factor` variable is `(255-alpha)/255`)
scales each in-range pixel's R,G,B channels by f/255 in double precision
with truncation toward zero — exactly `goFloatScale (255-f)`, which can land
one below the exact integer scale — and sets its alpha byte to 255;
`darken 255` leaves the RGB channels exactly unchanged, and `darken 128` on
an all-white pixel yields exactly 128 in each channel. -/
theorem darken_scales_rgb_and_sets_opaque (W H f : Nat) (hf : f ≤ 255)
    (b : Buf) (i : Int) (h0 : 0 ≤ i) (hi : i < ((W * H : Nat) : Int)) :
    (darken W H f b i =
      255 * 2 ^ 24 + goFloatScale (255 - f) (b i / 2 ^ 16 % 256) * 2 ^ 16 +
        goFloatScale (255 - f) (b i / 2 ^ 8 % 256) * 2 ^ 8 +
        goFloatScale (255 - f) (b i % 256)) ∧
    darken W H f b i / 2 ^ 24 % 256 = 255 ∧
    (f = 255 →
      darken W H f b i / 2 ^ 16 % 256 = b i / 2 ^ 16 % 256 ∧
      darken W H f b i / 2 ^ 8 % 256 = b i / 2 ^ 8 % 256 ∧
      darken W H f b i % 256 = b i % 256) ∧
    (f = 128 → b i = whiteColor →
      darken W H f b i / 2 ^ 16 % 256 = 128 ∧
      darken W H f b i / 2 ^ 8 % 256 = 128 ∧
      darken W H f b i % 256 = 128) := by
  have happ : darken W H f b i = fillPixel (255 - f) (b i) := by
    unfold darken
    rw [fillOverlay_apply, if_pos ⟨h0, hi⟩]
  have hr : b i / 2 ^ 16 % 256 < 256 := Nat.mod_lt _ (by omega)
  have hg : b i / 2 ^ 8 % 256 < 256 := Nat.mod_lt _ (by omega)
  have hb : b i % 256 < 256 := Nat.mod_lt _ (by omega)
  set R := goFloatScale (255 - f) (b i / 2 ^ 16 % 256) with hR
  set G := goFloatScale (255 - f) (b i / 2 ^ 8 % 256) with hG
  set B := goFloatScale (255 - f) (b i % 256) with hB2
  have hRle : R ≤ 255 := by rw [hR]; exact goFloatScale_le _ _ (by omega) hr
  have hGle : G ≤ 255 := by rw [hG]; exact goFloatScale_le _ _ (by omega) hg
  have hBle : B ≤ 255 := by rw [hB2]; exact goFloatScale_le _ _ (by omega) hb
  have hpix : fillPixel (255 - f) (b i) =
      255 * 2 ^ 24 + R * 2 ^ 16 + G * 2 ^ 8 + B := by
    rw [hR, hG, hB2]
    rfl
  refine ⟨by rw [happ, hpix], ?_, ?_, ?_⟩
  · rw [happ, hpix]
    omega
  · intro h255
    subst h255
    have hRr : R = b i / 2 ^ 16 % 256 := by
      rw [hR]
      exact goFloatScale_zero _ hr
    have hGg : G = b i / 2 ^ 8 % 256 := by
      rw [hG]
      exact goFloatScale_zero _ hg
    have hBb : B = b i % 256 := by
      rw [hB2]
      exact goFloatScale_zero _ hb
    refine ⟨?_, ?_, ?_⟩ <;> rw [happ, hpix, hRr, hGg, hBb] <;> omega
  · intro h128 hwhite
    subst h128
    have hwr : b i / 2 ^ 16 % 256 = 255 := by rw [hwhite]; decide
    have hwg : b i / 2 ^ 8 % 256 = 255 := by rw [hwhite]; decide
    have hwb : b i % 256 = 255 := by rw [hwhite]; decide
    have hR128 : R = 128 := by
      rw [hR, hwr]
      exact goFloatScale_white128
    have hG128 : G = 128 := by
      rw [hG, hwg]
      exact goFloatScale_white128
    have hB128 : B = 128 := by
      rw [hB2, hwb]
      exact goFloatScale_white128
    refine ⟨?_, ?_, ?_⟩ <;> rw [happ, hpix, hR128, hG128, hB128] <;> omega

/-- C6 amended, witness: the darken theorem applied at factor 128 to a 1×1
all-white buffer, yielding red channel exactly 128. -/
theorem darken_scales_rgb_and_sets_opaque_witness :
    (128 : Nat) ≤ 255 ∧
    darken 1 1 128 (fun _ => whiteColor) 0 / 2 ^ 16 % 256 = 128 := by
  refine ⟨by decide, ?_⟩
  have := darken_scales_rgb_and_sets_opaque 1 1 128 (by decide)
    (fun _ => whiteColor) 0 (by decide) (by decide)
  exact (this.2.2.2 rfl rfl).1

/-- C7: for every buffer size, every selection geometry, every background
image and every scale function, each drawing primitive and the full frame
assembly `drawOverlay` leave every index outside `[0, width*height)` — and
hence every pixel position outside the owned buffer — untouched; all the
functions are total, so the frame always completes with no failure path. -/
theorem compositor_writes_stay_in_bounds (W H : Nat) (scr : Option RGBAImage) (sel : Selection)
    (scale : Int → Int) (b : Buf) (x y w h x0 y0 : Int) (alpha color : Nat)
    (font : Char → Option (List Nat)) (text : List Char) (glyph : List Nat)
    (i : Int) (hout : outOfBuf W H i) :
    drawScreenshot W H scr b i = b i ∧
    fillOverlay W H alpha b i = b i ∧
    clearRegion W H x y w h scr b i = b i ∧
    drawSelectionBorder W H x y w h b i = b i ∧
    drawCornerHandles W H x y w h b i = b i ∧
    drawSizeIndicator W H x y w h b i = b i ∧
    drawGlyph W H x0 y0 glyph color b i = b i ∧
    drawTextRun W H font x0 y0 text b i = b i ∧
    drawInstructions W H sel b i = b i ∧
    drawOverlay W H scr sel scale b i = b i :=
  ⟨drawScreenshot_frame W H scr b i hout,
   fillOverlay_frame W H alpha b i hout,
   clearRegion_frame W H x y w h scr b i hout,
   drawSelectionBorder_frame W H x y w h b i hout,
   drawCornerHandles_frame W H x y w h b i hout,
   drawSizeIndicator_frame W H x y w h b i hout,
   drawGlyph_frame W H x0 y0 glyph color b i hout,
   drawTextRun_frame W H font y0 i hout text b x0,
   drawInstructions_frame W H sel b i hout,
   drawOverlay_frame W H scr sel scale b i hout⟩

/-- C7 witness: the bounded-writes theorem applied to concrete arguments at
the out-of-range index -1. -/
theorem compositor_writes_stay_in_bounds_witness :
    outOfBuf 1 1 (-1) ∧
    drawOverlay 1 1 none ⟨0, 0, 0, 0, true, false⟩ (fun v => v)
      (fun _ => 0) (-1) = 0 := by
  have hout : outOfBuf 1 1 (-1) := Or.inl (by decide)
  refine ⟨hout, ?_⟩
  have := compositor_writes_stay_in_bounds 1 1 none ⟨0, 0, 0, 0, true, false⟩ (fun v => v)
    (fun _ => 0) 0 0 0 0 0 0 0 0 fontDigits [] [] (-1) hout
  exact this.2.2.2.2.2.2.2.2.2

/-- C8: for a selection rectangle contained in the buffer and a background
image covering it, the frame steps background-blit, darken (alpha 128), and
the `clearRegion` restore leave every pixel inside the rectangle holding
exactly the original background RGB bytes, packed opaque. -/
theorem darken_restore_reproduces_background (W H : Nat) (s : RGBAImage) (x y w h : Int) (b : Buf)
    (pxT pyT : Int)
    (hx0 : 0 ≤ x) (hy0 : 0 ≤ y)
    (hxw : x + w ≤ (W : Int)) (hyh : y + h ≤ (H : Int))
    (hsw : x + w ≤ (s.width : Int)) (hsh : y + h ≤ (s.height : Int))
    (hpx1 : x ≤ pxT) (hpx2 : pxT < x + w)
    (hpy1 : y ≤ pyT) (hpy2 : pyT < y + h) :
    clearRegion W H x y w h (some s)
        (fillOverlay W H 128 (drawScreenshot W H (some s) b))
        (pyT * (W : Int) + pxT) =
      packBGRA (pixByte s (pyT * (s.stride : Int) + pxT * 4))
        (pixByte s (pyT * (s.stride : Int) + pxT * 4 + 1))
        (pixByte s (pyT * (s.stride : Int) + pxT * 4 + 2)) :=
  clearRegion_hit W H s x y w h _ pxT pyT hpx1 hpx2 hpy1 hpy2
    (by omega) (by omega) (by omega) (by omega) (by omega) (by omega)

/-- C8 witness: the restore theorem applied to a concrete 2×2 buffer and
background with a 1×1 selection at the origin. -/
theorem darken_restore_reproduces_background_witness :
    clearRegion 2 2 0 0 1 1 (some ⟨2, 2, 8, fun i => i.toNat⟩)
        (fillOverlay 2 2 128 (drawScreenshot 2 2 (some ⟨2, 2, 8, fun i => i.toNat⟩) (fun _ => 0)))
        (0 * (2 : Int) + 0) =
      packBGRA (pixByte ⟨2, 2, 8, fun i => i.toNat⟩ (0 * (8 : Int) + 0 * 4))
        (pixByte ⟨2, 2, 8, fun i => i.toNat⟩ (0 * (8 : Int) + 0 * 4 + 1))
        (pixByte ⟨2, 2, 8, fun i => i.toNat⟩ (0 * (8 : Int) + 0 * 4 + 2)) :=
  darken_restore_reproduces_background 2 2 ⟨2, 2, 8, fun i => i.toNat⟩ 0 0 1 1 (fun _ => 0) 0 0
    (by decide) (by decide) (by decide) (by decide) (by decide) (by decide)
    (by decide) (by decide) (by decide) (by decide)

end Winshot
